import Mathlib

namespace Araripe

/-!
# Verification of the Araripe anomaly-detection and temporal-analytics engine

A shallow embedding, in Lean 4, of the core numerical routines of the Araripe
deforestation-monitoring repository, together with proofs about them.

Modelling conventions, used throughout:

* Grids and series hold double-precision values with a distinguished NaN
  ("missing") marker.  All arithmetic the embedded code performs on them is
  exact (no rounding is involved in the claims at issue), so a value is
  modelled as `Option ℚ`: `none` is NaN, `some x` a finite value.
  Comparisons mirror IEEE/numpy semantics: any comparison with NaN is false.
* A Python function that can raise is modelled as returning `Option`; `none`
  models the raised exception.
* External numeric collaborators that compute irrational quantities
  (`scipy.stats.gamma.fit`/`cdf`, `scipy.stats.norm.ppf`, `np.sqrt`,
  the harmonic least-squares fit) are passed in as explicit function
  parameters; the control flow around them is embedded fully.
-/

/-- A floating-point value: `none` models IEEE NaN (the missing-pixel marker),
`some x` a finite value, carried exactly as a rational. -/
abbrev Val := Option ℚ

/-- `a - b` with NaN propagation (numpy elementwise subtraction). -/
def vsub : Val → Val → Val
  | some a, some b => some (a - b)
  | _, _ => none

/-- `a + b` with NaN propagation (numpy elementwise addition). -/
def vadd : Val → Val → Val
  | some a, some b => some (a + b)
  | _, _ => none

/-- The numpy comparison `x < t` against a finite threshold: false when `x`
is NaN. -/
def vlt (a : Val) (t : ℚ) : Bool :=
  match a with
  | some x => decide (x < t)
  | none => false

/-- Three-list `zipWith`, truncating to the shortest list (the grids the code
combines are co-registered and equally sized). -/
def zipWith3 (f : α → β → γ → δ) : List α → List β → List γ → List δ
  | a :: as, b :: bs, c :: cs => f a b c :: zipWith3 f as bs cs
  | _, _, _ => []

/-- Python `int(x)`: truncation toward zero. -/
def intTrunc (x : ℚ) : ℤ :=
  if 0 ≤ x then ⌊x⌋ else ⌈x⌉

/- ───────────────────────── src/detection/baseline.py ───────────────────── -/

/-- One pixel of `safe_std = std.where(std > min_std, other=min_std)`.
`.where(cond, other)` keeps the value where `cond` holds and substitutes
`other` elsewhere; the comparison `NaN > min_std` is false, so a NaN std
pixel is replaced by `min_std` (it does not stay NaN). -/
def safeStdPix (minStd : ℚ) (s : Val) : ℚ :=
  match s with
  | some x => if minStd < x then x else minStd
  | none => minStd

/-- One pixel of `zscore = (current - mean) / safe_std`.  The denominator is
always the finite `safeStdPix`, so the result is NaN exactly when `current`
or `mean` is NaN. -/
def zscorePix (minStd : ℚ) (c m s : Val) : Val :=
  (vsub c m).map (fun d => d / safeStdPix minStd s)

/-- `compute_zscore(current, mean, std, min_std=0.01)` from
src/detection/baseline.py. -/
def compute_zscore (current mean std : List Val) (minStd : ℚ := 1/100) : List Val :=
  zipWith3 (zscorePix minStd) current mean std

/-- `compute_delta(current, mean) = current - mean` from
src/detection/baseline.py. -/
def compute_delta (current mean : List Val) : List Val :=
  List.zipWith vsub current mean

/- ───────────────────────── config/settings.py ──────────────────────────── -/

def Z_THRESHOLD_HIGH : ℚ := -3
def Z_THRESHOLD_MEDIUM : ℚ := -5/2
def Z_THRESHOLD_LOW : ℚ := -2
def DELTA_THRESHOLD_HIGH : ℚ := -1/5
def DELTA_THRESHOLD_MEDIUM : ℚ := -3/20
def DELTA_THRESHOLD_LOW : ℚ := -1/10
def SPI_DROUGHT_THRESHOLD : ℚ := -1
def DROUGHT_Z_ADJUSTMENT : ℚ := 1/2

/- ───────────────────────── src/detection/change_detect.py ──────────────── -/

/-- A dict of named grids (the `xr.Dataset` data variables, or a
`dict[str, DataArray]`), in insertion order. -/
abbrev GridMap := List (String × List Val)

/-- Python `name in d` / `d[name]` on a grid dict. -/
def lookupGrid (m : GridMap) (k : String) : Option (List Val) :=
  (m.find? (fun p => p.1 == k)).map (fun p => p.2)

/-- The per-index loop of `detect_deforestation`: for each available index,
`z_{name} = compute_zscore(current, mean, std)` and
`delta_{name} = compute_delta(current, mean)` (the `results` dict).
`none` models the `KeyError` raised when an index present in
`baseline_means` is missing from `baseline_stds`. -/
def compZD (means stds : GridMap) : List (String × List Val) →
    Option (List (String × List Val × List Val))
  | [] => some []
  | (n, g) :: rest =>
    match lookupGrid means n, lookupGrid stds n, compZD means stds rest with
    | some m, some s, some r =>
        some ((n, compute_zscore g m s, compute_delta g m) :: r)
    | _, _, _ => none

/-- `results[f"z_{n}"]` (defaults to the empty grid for a key that is absent,
which cannot happen for the names the classification iterates over). -/
def zOf (computed : List (String × List Val × List Val)) (n : String) : List Val :=
  ((computed.find? (fun p => p.1 == n)).map (fun p => p.2.1)).getD []

/-- `results[f"delta_{n}"]`. -/
def dOf (computed : List (String × List Val × List Val)) (n : String) : List Val :=
  ((computed.find? (fun p => p.1 == n)).map (fun p => p.2.2)).getD []

/-- Elementwise boolean AND of two flag grids. -/
def andG : List Bool → List Bool → List Bool := List.zipWith and

/-- Elementwise `grid < threshold` flag grid. -/
def ltG (g : List Val) (t : ℚ) : List Bool := g.map (fun v => vlt v t)

/-- High-confidence step: when at least two moisture indices are available,
`high_z`/`high_d` start from the scalar `True` (modelled as an all-true grid)
and are AND-ed over the moisture indices against the high z / high delta
thresholds; `confidence.where(~(high_z & high_d), other=3)` then sets 3
where both hold.  (The source accumulates `high_z` and `high_d` in a single
loop; the two folds below compute the same two grids.) -/
def highStage (computed : List (String × List Val × List Val))
    (moisture : List String) (zHigh dHigh : ℚ) (conf : List ℤ) : List ℤ :=
  if 2 ≤ moisture.length then
    let highZ := moisture.foldl (fun acc n => andG acc (ltG (zOf computed n) zHigh))
        (List.replicate conf.length true)
    let highD := moisture.foldl (fun acc n => andG acc (ltG (dOf computed n) dHigh))
        (List.replicate conf.length true)
    List.zipWith (fun fl c => if fl then (3 : ℤ) else c) (andG highZ highD) conf
  else conf

/-- One pixel of the medium-confidence update:
`confidence.where(~((confidence < 2) & (z < z_med | delta < d_med)), other=2)`. -/
def medPix (zMed dMed : ℚ) (c : ℤ) (z d : Val) : ℤ :=
  if decide (c < 2) && (vlt z zMed || vlt d dMed) then 2 else c

/-- Medium-confidence step: the loop over the moisture indices. -/
def medStage (computed : List (String × List Val × List Val))
    (moisture : List String) (zMed dMed : ℚ) (conf : List ℤ) : List ℤ :=
  moisture.foldl
    (fun conf n => zipWith3 (medPix zMed dMed) conf (zOf computed n) (dOf computed n))
    conf

/-- One pixel of the low-confidence update:
`confidence.where(~((confidence < 1) & (z < z_low)), other=1)`. -/
def lowPix (zLow : ℚ) (c : ℤ) (z : Val) : ℤ :=
  if decide (c < 1) && vlt z zLow then 1 else c

/-- Low-confidence step: the loop over all available indices. -/
def lowStage (computed : List (String × List Val × List Val))
    (names : List String) (zLow : ℚ) (conf : List ℤ) : List ℤ :=
  names.foldl (fun conf n => List.zipWith (lowPix zLow) conf (zOf computed n)) conf

/-- The drought adjustment: `z_adj = 0.5` when `spi_3month` is given and
below the drought threshold, else `0.0`. -/
def zAdjOf (spi3 : Option ℚ) : ℚ :=
  match spi3 with
  | some s => if s < SPI_DROUGHT_THRESHOLD then DROUGHT_Z_ADJUSTMENT else 0
  | none => 0

/-- The confidence-classification block of `detect_deforestation`: the high,
medium and low steps applied in order, with the z thresholds widened by
`zAdj`. -/
def classifyConfidence (computed : List (String × List Val × List Val))
    (names moisture : List String) (zAdj : ℚ) (conf0 : List ℤ) : List ℤ :=
  lowStage computed names (Z_THRESHOLD_LOW - zAdj)
    (medStage computed moisture (Z_THRESHOLD_MEDIUM - zAdj) DELTA_THRESHOLD_MEDIUM
      (highStage computed moisture (Z_THRESHOLD_HIGH - zAdj) DELTA_THRESHOLD_HIGH conf0))

/-- The dataset `detect_deforestation` returns. -/
structure DetectResult where
  zGrids : List (String × List Val)
  deltaGrids : List (String × List Val)
  confidence : List ℤ
  isAlert : List Bool
deriving DecidableEq

/-- `detect_deforestation(current_indices, baseline_means, baseline_stds,
spi_3month)` from src/detection/change_detect.py.  `none` models an
exception: the `KeyError` on a std lookup, or the `IndexError` raised by
`list(results.values())[0]` when no current index has a baseline. -/
def detect_deforestation (currents means stds : GridMap) (spi3 : Option ℚ) :
    Option DetectResult :=
  let available := currents.filter (fun p => (lookupGrid means p.1).isSome)
  match compZD means stds available with
  | none => none
  | some [] => none
  | some (first :: rest) =>
    let computed := first :: rest
    -- `reference = list(results.values())[0]` is the z grid of the first
    -- available index; `confidence = xr.zeros_like(reference, dtype=int8)`
    let conf0 : List ℤ := first.2.1.map (fun _ => 0)
    let names := available.map (fun p => p.1)
    let moisture := names.filter (fun n => n == "ndmi" || n == "nbr")
    let c3 := classifyConfidence computed names moisture (zAdjOf spi3) conf0
    some { zGrids := computed.map (fun p => (p.1, p.2.1)),
           deltaGrids := computed.map (fun p => (p.1, p.2.2)),
           confidence := c3,
           isAlert := c3.map (fun c => decide (0 < c)) }

/-- The alert count `is_alert.sum()`; an exception has no count (0). -/
def alertCount : Option DetectResult → ℕ
  | none => 0
  | some r => r.isAlert.count true

/- ───────────────────────── src/timeseries/trends.py ────────────────────── -/

/-- The Mann-Kendall S statistic: the double loop
`for i in range(n-1): for j in range(i+1, n): s += sign(clean[j] - clean[i])`. -/
def signSum : List ℚ → ℤ
  | [] => 0
  | x :: xs =>
    (xs.map (fun y => if x < y then (1 : ℤ) else if y < x then -1 else 0)).sum
      + signSum xs

/-- The square of `Φ⁻¹(0.975) ≈ 1.959964`, embedded as `1.96² = 3.8416`
(see `mk_significant`). -/
def zcritSq : ℚ := 2401/625

/-- The significance decision of `mann_kendall_test`, embedded exactly.
The code computes the continuity-corrected `z = (s ∓ 1)/sqrt(var_s)`
(`0` when `var_s ≤ 0` or `s = 0`) and `p = 2*(1 - Φ(|z|))`, and tests
`p < 0.05`.  Since `Φ` is strictly increasing, `p < 0.05 ↔ |z| > Φ⁻¹(0.975)`,
i.e. (for `s > 0`, where `z ≥ 0`) `(s-1)² > Φ⁻¹(0.975)²·var_s`, an exact
rational comparison.  `zcritSq = 3.8416` stands for
`Φ⁻¹(0.975)² = 3.8414588…`; the two decisions differ only when `z²` falls in
`(3.8414589, 3.8416]`, which does not occur at any input considered here. -/
def mk_significant (s : ℤ) (varS : ℚ) : Bool :=
  if 0 < varS then
    if 0 < s then decide (zcritSq * varS < ((s : ℚ) - 1)^2)
    else if s < 0 then decide (zcritSq * varS < ((s : ℚ) + 1)^2)
    else false
  else false

/-- Sizes of the tied-value groups: `np.unique(clean, return_counts=True)`
then `counts[counts > 1]`.  (`np.unique` lists values in sorted order,
`dedup` in first-occurrence order; only the multiset of counts matters to
the variance sum.) -/
def tiedGroupSizes (clean : List ℚ) : List ℕ :=
  (clean.dedup.map (fun v => clean.count v)).filter (fun t => 1 < t)

/-- `var_s = n(n-1)(2n+5)/18 - Σ_t t(t-1)(2t+5)/18` over tie groups. -/
def varSOf (n : ℕ) (clean : List ℚ) : ℚ :=
  ((n : ℚ) * ((n : ℚ) - 1) * (2 * (n : ℚ) + 5)) / 18
    - ((tiedGroupSizes clean).map
        (fun t => ((t : ℚ) * ((t : ℚ) - 1) * (2 * (t : ℚ) + 5)) / 18)).sum

/-- The record `mann_kendall_test` returns.  `p_value` carries `some q`
where the code returns the float literal `q`; in the fitted branch the
p-value is `2*(1-Φ(|z|))`, irrational in general, represented as `none` —
its only downstream use, the comparison with 0.05, is embedded exactly in
`significant`. -/
structure MKResult where
  tau : ℚ
  p_value : Option ℚ
  trend : String
  significant : Bool
  n : ℕ
deriving DecidableEq

/-- `mann_kendall_test(values)` from src/timeseries/trends.py. -/
def mann_kendall_test (values : List Val) : MKResult :=
  let clean := values.filterMap id
  let n := clean.length
  if n < 4 then
    { tau := 0, p_value := some 1, trend := "insufficient_data",
      significant := false, n := n }
  else
    let s := signSum clean
    let tau : ℚ := (s : ℚ) / ((n : ℚ) * ((n : ℚ) - 1) / 2)
    let varS := varSOf n clean
    let signif := mk_significant s varS
    let trend :=
      if signif then (if 0 < tau then "increasing" else "decreasing")
      else "no_trend"
    { tau := tau, p_value := none, trend := trend, significant := signif, n := n }

/-- `np.median`: sort ascending; middle element for odd length, mean of the
two middle elements for even length.  (`np.median([])` is NaN with a
warning; that case is unreachable in the code's uses — both call sites are
guarded — and defaults to 0 here.) -/
def median (l : List ℚ) : ℚ :=
  let s := l.mergeSort (fun a b => decide (a ≤ b))
  let n := s.length
  if n % 2 = 1 then s.getD (n / 2) 0
  else (s.getD (n / 2 - 1) 0 + s.getD (n / 2) 0) / 2

/-- The record `sens_slope` returns. -/
structure SlopeResult where
  slope : ℚ
  intercept : ℚ
  lower_ci : ℚ
  upper_ci : ℚ
deriving DecidableEq

/-- The pairwise-slope double loop of `sens_slope`: for `i < j`, a slope
`(y_j - y_i)/(t_j - t_i)` is formed only when `dt = t_j - t_i > 0`. -/
def pairwiseSlopes : List (ℚ × ℚ) → List ℚ
  | [] => []
  | (t1, y1) :: rest =>
    (rest.filterMap
        (fun p => if t1 < p.1 then some ((p.2 - y1) / (p.1 - t1)) else none))
      ++ pairwiseSlopes rest

/-- `sens_slope(dates, values)` from src/timeseries/trends.py.  Dates are
timestamps in seconds; `(d - clean_dates[0]).total_seconds()/(365.25*86400)`
is exact rational arithmetic.  `np.sqrt` in the confidence-interval rank
formula is the `sqrtA` parameter (the claims below never reach it); with a
genuine square root the rank indices stay inside the sorted slope array,
matching the `max(0, ·)`/`min(len-1, ·)` clamps. -/
def sens_slope (sqrtA : ℚ → ℚ) (dates : List ℚ) (values : List Val) : SlopeResult :=
  let pairs := (dates.zip values).filterMap (fun p => p.2.map (fun v => (p.1, v)))
  let n := pairs.length
  if n < 3 then ⟨0, 0, 0, 0⟩
  else
    let t0 := (pairs.head?.map (fun p => p.1)).getD 0
    let ty := pairs.map (fun p => ((p.1 - t0) / ((36525/100) * 86400), p.2))
    let slopes := pairwiseSlopes ty
    if slopes.isEmpty then ⟨0, 0, 0, 0⟩
    else
      let medSlope := median slopes
      let intercept := median (ty.map (fun p => p.2 - medSlope * p.1))
      let cAlpha := (196/100) * sqrtA ((n : ℚ) * ((n : ℚ) - 1) * (2 * (n : ℚ) + 5) / 18)
      let m1 := intTrunc (((slopes.length : ℚ) - cAlpha) / 2)
      let m2 := intTrunc (((slopes.length : ℚ) + cAlpha) / 2)
      let sorted := slopes.mergeSort (fun a b => decide (a ≤ b))
      let lower := sorted.getD (max 0 m1).toNat 0
      let upper := sorted.getD (min ((sorted.length : ℤ) - 1) m2).toNat 0
      ⟨medSlope, intercept, lower, upper⟩

/- ───────────────────────── src/processing/spi.py ───────────────────────── -/

/-- `np.nanmean` of an (already NaN-free) list; `np.mean` likewise.
(Empty input gives NaN with a warning in numpy; unreachable in the guarded
uses below, and `0/0 = 0` here.) -/
def meanQ (l : List ℚ) : ℚ := l.sum / l.length

/-- Population variance, i.e. the square of `np.std`/`np.nanstd`. -/
def variance (l : List ℚ) : ℚ :=
  (l.map (fun x => (x - meanQ l)^2)).sum / l.length

/-- `compute_spi(precipitation, reference_period)` from
src/processing/spi.py.  The external numeric collaborators are parameters:
`gammaFit` is `scipy.stats.gamma.fit(·, floc=0)` returning `(shape, scale)`
(`none` models the exception caught by the `try`), `gammaCdf` is
`scipy.stats.gamma.cdf(target, shape, loc=0, scale)`, `normPpf` is
`scipy.stats.norm.ppf`, and `sqrtA` is the square root used by
`np.std`/`np.nanstd` (applied to the exact population variance). -/
def compute_spi (gammaFit : List ℚ → Option (ℚ × ℚ))
    (gammaCdf : ℚ → ℚ → ℚ → ℚ) (normPpf : ℚ → ℚ) (sqrtA : ℚ → ℚ)
    (precipitation : List Val) (reference_period : Option (List Val)) : ℚ :=
  let ref := reference_period.getD precipitation
  -- `target = precipitation[-1] if len(precipitation) > 0 else 0`
  let target : Val := (precipitation.getLast?).getD (some 0)
  match target with
  | none => 0  -- NaN target: SPI = 0.0 before any fitting
  | some tgt =>
    let refClean := ref.filterMap id
    let refNonzero := refClean.filter (fun x => 0 < x)
    if refNonzero.length < 10 then
      -- fallback: plain z-score of the cleaned reference
      let mean := if 0 < refClean.length then meanQ refClean else 0
      let std := if 1 < refClean.length then sqrtA (variance refClean) else 1
      if 0 < std then (tgt - mean) / std else 0
    else if sqrtA (variance refNonzero) < 1/10000000000 then 0
    else
      let q : ℚ := (refClean.count 0 : ℚ) / refClean.length
      match gammaFit refNonzero with
      | none =>
        -- gamma fit failed: plain z-score fallback
        let mean := meanQ refClean
        let std := sqrtA (variance refClean)
        if 0 < std then (tgt - mean) / std else 0
      | some (shape, scale) =>
        let cdfVal := if tgt = 0 then q else q + (1 - q) * gammaCdf tgt shape scale
        let clamped := min (max cdfVal (1/1000)) (999/1000)
        normPpf clamped

/-- `np.convolve(arr, ones(3), mode="valid")`: sliding three-term sums,
with NaN propagation. -/
def rolling3 : List Val → List Val
  | a :: b :: c :: rest => vadd a (vadd b c) :: rolling3 (b :: c :: rest)
  | _ => []

/-- `compute_spi_3month(monthly_precip)` from src/processing/spi.py. -/
def compute_spi_3month (gammaFit : List ℚ → Option (ℚ × ℚ))
    (gammaCdf : ℚ → ℚ → ℚ → ℚ) (normPpf : ℚ → ℚ) (sqrtA : ℚ → ℚ)
    (monthly : List Val) : ℚ :=
  if monthly.length < 3 then 0
  else
    let sums := rolling3 monthly
    if sums.length < 2 then 0
    else compute_spi gammaFit gammaCdf normPpf sqrtA sums none

/-- Fifteen monthly reference values: five dry months (0 mm) and ten wet
months of exactly 5 mm; the target (last value) is 5 mm. -/
def spiCexInput : List Val :=
  [some 0, some 0, some 0, some 0, some 0, some 5, some 5, some 5, some 5,
   some 5, some 5, some 5, some 5, some 5, some 5]

/- ───────────────────────── src/timeseries/seasonal.py ──────────────────── -/

/-- One reported breakpoint: date (as a timestamp), observed value, model
expectation, and anomaly. -/
structure BreakRec where
  date : ℚ
  value : ℚ
  expected : ℚ
  anomaly : ℚ
deriving DecidableEq

/-- The per-observation flag of `detect_breaks_harmonic`:
`is_anomaly[i] and not np.isnan(monitor_values[i])`, where
`is_anomaly = |monitor_values - expected| > threshold` (false for NaN, as
every NaN comparison is). -/
def flaggedObs (predict : ℚ → ℚ) (threshold : ℚ) (p : ℚ × Val) : Bool :=
  match p.2 with
  | some x => decide (threshold < |x - predict p.1|)
  | none => false

/-- The monitoring subseries: observations strictly after `history_end`
(`history_mask = dates <= pd.Timestamp(history_end)`, monitor is its
complement), dates and values paired. -/
def monitorOf (dates : List ℚ) (values : List Val) (historyEnd : ℚ) :
    List (ℚ × Val) :=
  (dates.zip values).filter (fun p => ¬ p.1 ≤ historyEnd)

/-- The consecutive-anomaly confirmation loop of `detect_breaks_harmonic`.
The source iterates by index, incrementing `consecutive_count` on each
flagged non-missing observation, appending the observation at
`i - n_consecutive + 1` (where the current run began) once the count
reaches `n_consecutive`, and resetting the count to 0 after a confirmation
and on every non-flagged or missing observation.  The recursion carries the
run's first observation (`start`, present exactly while `count > 0`, set
when the count rises from 0 to 1) instead of indexing back, which is the
same observation the source's `i - n_consecutive + 1` selects. -/
def breakLoop (predict : ℚ → ℚ) (threshold : ℚ) (nCons : ℕ) :
    List (ℚ × Val) → ℕ → Option BreakRec → List BreakRec
  | [], _, _ => []
  | (d, v) :: rest, count, start =>
    match v with
    | some x =>
      if threshold < |x - predict d| then
        let st := start.getD ⟨d, x, predict d, x - predict d⟩
        if nCons ≤ count + 1 then
          st :: breakLoop predict threshold nCons rest 0 none
        else breakLoop predict threshold nCons rest (count + 1) (some st)
      else breakLoop predict threshold nCons rest 0 none
    | none => breakLoop predict threshold nCons rest 0 none

/-- `detect_breaks_harmonic(dates, values, history_end, n_harmonics,
threshold_factor, n_consecutive)` from src/timeseries/seasonal.py.  The
harmonic least-squares fit on the historical sub-period (`harmonic_fit`,
floating-point `np.linalg.lstsq` plus trigonometric design matrix) is
abstracted into its interface: `predict` gives the fitted model's
expectation at a date (`X @ fit["coefficients"]` rowwise) and `rmse` its
historical RMSE, `none` modelling `np.isnan(fit["rmse"])` (too few
historical points), on which the function returns an empty list. -/
def detect_breaks_harmonic (predict : ℚ → ℚ) (rmse : Option ℚ)
    (dates : List ℚ) (values : List Val) (historyEnd : ℚ)
    (thresholdFactor : ℚ) (nCons : ℕ) : List BreakRec :=
  match rmse with
  | none => []
  | some rm =>
    breakLoop predict (thresholdFactor * rm) nCons
      (monitorOf dates values historyEnd) 0 none

/- ───────────────────────── src/detection/alerts.py ─────────────────────── -/

/-- Banker's rounding to the nearest integer (round half to even), the
rounding Python's built-in `round` uses. -/
def roundHE (x : ℚ) : ℤ :=
  let f := ⌊x⌋
  let r := x - f
  if r < 1/2 then f
  else if 1/2 < r then f + 1
  else if f % 2 = 0 then f else f + 1

/-- Python `round(x, 2)` on our exact rationals. -/
def round2 (x : ℚ) : ℚ := (roundHE (x * 100) : ℚ) / 100

/-- Minimum of a list of naturals (0 for the empty list, which never
arises below). -/
def natsMin : List ℕ → ℕ
  | [] => 0
  | x :: xs => xs.foldl min x

/-- Maximum of a list of naturals. -/
def natsMax : List ℕ → ℕ
  | [] => 0
  | x :: xs => xs.foldl max x

/-- Maximum of a list of rationals (`np.nanmax`; the confidence values fed
to it are integers, never NaN). -/
def listMax : List ℚ → Option ℚ
  | [] => none
  | x :: xs => some (xs.foldl max x)

/-- `alert_mask = (confidence >= min_confidence)`: the alert pixels of the
raster, as (row, column) pairs in row-major scan order. -/
def maskPixels (conf : List (List ℚ)) (minConf : ℚ) : List (ℕ × ℕ) :=
  ((conf.enum.map (fun rc =>
    rc.2.enum.filterMap (fun cv =>
      if minConf ≤ cv.2 then some (rc.1, cv.1) else none)))).flatten

/-- 4-connectivity of raster cells, the default connectivity of
`rasterio.features.shapes`. -/
def adjacent (p q : ℕ × ℕ) : Bool :=
  (p.1 == q.1 && (p.2 + 1 == q.2 || q.2 + 1 == p.2)) ||
  (p.2 == q.2 && (p.1 + 1 == q.1 || q.1 + 1 == p.1))

/-- One step of connected-component construction: a new mask pixel is merged
with every existing component it touches. -/
def addPixel (comps : List (List (ℕ × ℕ))) (p : ℕ × ℕ) : List (List (ℕ × ℕ)) :=
  let touching := comps.filter (fun comp => comp.any (fun q => adjacent p q))
  let rest := comps.filter (fun comp => ¬ comp.any (fun q => adjacent p q))
  (p :: touching.flatten) :: rest

/-- The 4-connected components of the mask pixels: the polygons
`rasterio.features.shapes(alert_mask, mask=alert_mask > 0, transform)`
emits, one per component.  Each polygon's geometric area in map units is
(number of component pixels) × |pixel width × pixel height| (holes are
pixels outside the component and are subtracted by `shapes`), and its
bounds are the component's pixel bounding box sent through the affine
transform. -/
def components (pixels : List (ℕ × ℕ)) : List (List (ℕ × ℕ)) :=
  pixels.foldl addPixel []

/-- `_assign_polygon_confidence` for one polygon, in pixel space.  For a
north-up affine transform, the polygon's projected bounds map back through
`~transform` exactly to `(col_min, row_min) = (cmin, rmin)` and
`(col_max, row_max) = (cmax+1, rmax+1)` (the polygon's far edges lie on the
next pixel boundary), so the clamped integer window of the source is rows
`max(0, rmin)` to `min(H, rmax+2)` and likewise for columns; `max(0, ·)` is
the identity on ℕ.  The window max is truncated to int, with the source's
degenerate-window and empty-window defaults of 1. -/
def assignConf (conf : List (List ℚ)) (comp : List (ℕ × ℕ)) : ℤ :=
  let H := conf.length
  let W := (conf.head?.getD []).length
  let r0 := natsMin (comp.map (fun p => p.1))
  let r1 := min H (natsMax (comp.map (fun p => p.1)) + 2)
  let c0 := natsMin (comp.map (fun p => p.2))
  let c1 := min W (natsMax (comp.map (fun p => p.2)) + 2)
  if r1 ≤ r0 ∨ c1 ≤ c0 then 1
  else
    let cells := (((conf.drop r0).take (r1 - r0)).map
      (fun row => (row.drop c0).take (c1 - c0))).flatten
    match listMax cells with
    | some m => intTrunc m
    | none => 1

/-- One row of the GeoDataFrame `vectorize_alerts` returns: the polygon
(kept as its component's pixel set), `area_ha` (rounded to 2 decimals by
the source's `round(area_ha, 2)`), and the assigned confidence. -/
structure AlertRec where
  pixels : List (ℕ × ℕ)
  area_ha : ℚ
  confidence : ℤ
deriving DecidableEq

/-- `vectorize_alerts(confidence, min_confidence, min_area_ha)` from
src/detection/alerts.py, over a raster with pixel sizes `pw × ph` in
metres (`polygon.area / 10_000` hectares).  An empty mask and an empty
post-filter record list both return the empty (zero-row) collection. -/
def vectorize_alerts (conf : List (List ℚ)) (pw ph : ℚ)
    (minConf : ℚ) (minAreaHa : ℚ) : List AlertRec :=
  let mask := maskPixels conf minConf
  if mask.isEmpty then []
  else
    let comps := components mask
    let records := comps.filterMap (fun comp =>
      let areaHa := (comp.length : ℚ) * (pw * ph) / 10000
      if areaHa < minAreaHa then none
      else some (comp, round2 areaHa))
    if records.isEmpty then []
    else records.map (fun rc => ⟨rc.1, rc.2, assignConf conf rc.1⟩)

/- ──────────────────────── theorems ──────────────────────── -/

/- ───────────────────────── helper lemmas ───────────────────────────────── -/

theorem zipWith3_getElem? (f : α → β → γ → δ) (as : List α) (bs : List β)
    (cs : List γ) (i : ℕ) :
    (zipWith3 f as bs cs)[i]? =
      match as[i]?, bs[i]?, cs[i]? with
      | some a, some b, some c => some (f a b c)
      | _, _, _ => none := by
  induction as generalizing bs cs i with
  | nil => simp [zipWith3]
  | cons a as ih =>
    cases bs with
    | nil => simp [zipWith3]
    | cons b bs =>
      cases cs with
      | nil => simp [zipWith3]
      | cons c cs =>
        cases i with
        | zero => simp [zipWith3]
        | succ j => simpa [zipWith3] using ih bs cs j

theorem zipWith_getElem? (f : α → β → γ) (as : List α) (bs : List β) (i : ℕ) :
    (List.zipWith f as bs)[i]? =
      match as[i]?, bs[i]? with
      | some a, some b => some (f a b)
      | _, _ => none := by
  induction as generalizing bs i with
  | nil => simp
  | cons a as ih =>
    cases bs with
    | nil => simp
    | cons b bs =>
      cases i with
      | zero => simp
      | succ j => simpa using ih bs j

theorem safeStdPix_some (minStd x : ℚ) : safeStdPix minStd (some x) = max x minStd := by
  by_cases h : minStd < x
  · rw [max_eq_left h.le]
    simp [safeStdPix, h]
  · rw [max_eq_right (le_of_not_lt h)]
    simp [safeStdPix, h]

/- ───────────────────────── Claim C9 ────────────────────────────────────── -/

/-- C9: wherever all three inputs are finite, `compute_zscore` equals
`(current − mean) / max(std, min_std)` pixelwise; the documented spot checks
`zscore(0.3, 0.5, 0.1) = −2`, `zscore(0.3, 0.5, 0.001, min_std=0.01) = −20`
hold, and self-comparison gives 0 wherever `std > min_std`. -/
theorem compute_zscore_formula :
    (∀ (cur mean std : List Val) (minStd : ℚ) (i : ℕ) (c m s : ℚ),
        cur[i]? = some (some c) → mean[i]? = some (some m) →
        std[i]? = some (some s) →
        (compute_zscore cur mean std minStd)[i]? = some (some ((c - m) / max s minStd)))
    ∧ compute_zscore [some (3/10)] [some (1/2)] [some (1/10)] = [some (-2)]
    ∧ compute_zscore [some (3/10)] [some (1/2)] [some (1/1000)] (1/100) = [some (-20)]
    ∧ (∀ (m s minStd : ℚ), minStd < s →
        compute_zscore [some m] [some m] [some s] minStd = [some 0]) := by
  refine ⟨?_, ?_, ?_, ?_⟩
  · intro cur mean std minStd i c m s hc hm hs
    rw [compute_zscore, zipWith3_getElem?, hc, hm, hs]
    simp [zscorePix, vsub, safeStdPix_some]
  · simp [compute_zscore, zipWith3, zscorePix, vsub, safeStdPix]
    norm_num
  · simp [compute_zscore, zipWith3, zscorePix, vsub, safeStdPix]
    norm_num
  · intro m s minStd h
    simp [compute_zscore, zipWith3, zscorePix, vsub, safeStdPix_some]

/-- Witness for `compute_zscore_formula` at concrete inputs. -/
theorem compute_zscore_formula_witness :
    (compute_zscore [some 1] [some 0] [some 1] (1/100))[0]? =
        some (some ((1 - 0) / max 1 (1/100)))
    ∧ compute_zscore [some 2] [some 2] [some 1] (1/100) = [some 0] :=
  ⟨compute_zscore_formula.1 [some 1] [some 0] [some 1] (1/100) 0 1 0 1 rfl rfl rfl,
   compute_zscore_formula.2.2.2 2 1 (1/100) (by norm_num)⟩

/- ───────────────────────── Claim C4 ────────────────────────────────────── -/

/-- C4 counterexample: the claim says a NaN `std` pixel yields a NaN z-score
pixel.  In the code `safe_std = std.where(std > min_std, other=min_std)`
replaces a NaN std by `min_std` (the NaN comparison is false), so with
`current = mean = 0.5` and `std = NaN` the z-score is `0`, not NaN. -/
theorem compute_zscore_nan_std_counterexample :
    compute_zscore [some (1/2)] [some (1/2)] [none] = [some 0]
    ∧ ([some 0] : List Val) ≠ [none] := by
  constructor
  · simp [compute_zscore, zipWith3, zscorePix, vsub, safeStdPix]
  · simp

/-- C4 amended: `compute_zscore` and `compute_delta` propagate NaN from
`current` and `mean` (any such missing input pixel yields a missing output
pixel), but a NaN `std` pixel is replaced by `min_std`, so with finite
`current` and `mean` it yields the finite value `(current − mean)/min_std`. -/
theorem compute_zscore_delta_nan_propagation :
    (∀ (cur mean std : List Val) (minStd : ℚ) (i : ℕ),
        (cur[i]? = some none ∨ mean[i]? = some none) →
        i < cur.length → i < mean.length → i < std.length →
        (compute_zscore cur mean std minStd)[i]? = some none)
    ∧ (∀ (cur mean : List Val) (i : ℕ),
        (cur[i]? = some none ∨ mean[i]? = some none) →
        i < cur.length → i < mean.length →
        (compute_delta cur mean)[i]? = some none)
    ∧ (∀ (cur mean std : List Val) (minStd : ℚ) (i : ℕ) (c m : ℚ),
        cur[i]? = some (some c) → mean[i]? = some (some m) → std[i]? = some none →
        (compute_zscore cur mean std minStd)[i]? = some (some ((c - m) / minStd))) := by
  refine ⟨?_, ?_, ?_⟩
  · intro cur mean std minStd i h hc hm hs
    rw [compute_zscore, zipWith3_getElem?]
    rcases h with h | h
    · rcases List.getElem?_eq_getElem hm with hm'
      rcases List.getElem?_eq_getElem hs with hs'
      rw [h, hm', hs']
      cases mean[i] <;> simp [zscorePix, vsub]
    · rcases List.getElem?_eq_getElem hc with hc'
      rcases List.getElem?_eq_getElem hs with hs'
      rw [h, hc', hs']
      cases cur[i] <;> simp [zscorePix, vsub]
  · intro cur mean i h hc hm
    rw [compute_delta, zipWith_getElem?]
    rcases h with h | h
    · rcases List.getElem?_eq_getElem hm with hm'
      rw [h, hm']
      cases mean[i] <;> simp [vsub]
    · rcases List.getElem?_eq_getElem hc with hc'
      rw [h, hc']
      cases cur[i] <;> simp [vsub]
  · intro cur mean std minStd i c m hc hm hs
    rw [compute_zscore, zipWith3_getElem?, hc, hm, hs]
    simp [zscorePix, vsub, safeStdPix]

/-- Witness for `compute_zscore_delta_nan_propagation` at concrete inputs. -/
theorem compute_zscore_delta_nan_propagation_witness :
    (compute_zscore [none] [some 1] [some 1] (1/100))[0]? = some none
    ∧ (compute_delta [some 1] [none])[0]? = some none
    ∧ (compute_zscore [some 1] [some 0] [none] (1/100))[0]? = some (some ((1 - 0) / (1/100))) :=
  ⟨compute_zscore_delta_nan_propagation.1 [none] [some 1] [some 1] (1/100) 0
      (Or.inl rfl) (by decide) (by decide) (by decide),
   compute_zscore_delta_nan_propagation.2.1 [some 1] [none] 0
      (Or.inr rfl) (by decide) (by decide),
   compute_zscore_delta_nan_propagation.2.2 [some 1] [some 0] [none] (1/100) 0 1 0
      rfl rfl rfl⟩

/- ───────────────────────── Claim C1 ────────────────────────────────────── -/

/-- C1: when zero current indices have a baseline, the claim says
`detect_deforestation` returns a uniformly-0 confidence grid.  The code
instead evaluates `list(results.values())[0]` on an empty dict and raises
`IndexError` (modelled as `none`): with one current index and empty
baseline dicts, the result is the exception, not a confidence grid. -/
theorem detect_deforestation_no_baseline_raises :
    detect_deforestation [("ndmi", [some (2/5)])] [] [] none = none := by
  rfl

/- ─────────────── helper lemmas about the classification stages ─────────── -/

theorem zipWith3_length (f : α → β → γ → δ) (as : List α) (bs : List β) (cs : List γ) :
    (zipWith3 f as bs cs).length = min as.length (min bs.length cs.length) := by
  induction as generalizing bs cs with
  | nil => simp [zipWith3]
  | cons a as ih =>
    cases bs with
    | nil => simp [zipWith3]
    | cons b bs =>
      cases cs with
      | nil => simp [zipWith3]
      | cons c cs =>
        simp only [zipWith3, List.length_cons, ih]
        omega

theorem medStage_nil (computed : List (String × List Val × List Val)) (zM dM : ℚ)
    (conf : List ℤ) : medStage computed [] zM dM conf = conf := rfl

theorem medStage_cons (computed : List (String × List Val × List Val)) (n : String)
    (ms : List String) (zM dM : ℚ) (conf : List ℤ) :
    medStage computed (n :: ms) zM dM conf =
      medStage computed ms zM dM
        (zipWith3 (medPix zM dM) conf (zOf computed n) (dOf computed n)) := rfl

theorem lowStage_nil (computed : List (String × List Val × List Val)) (zL : ℚ)
    (conf : List ℤ) : lowStage computed [] zL conf = conf := rfl

theorem lowStage_cons (computed : List (String × List Val × List Val)) (n : String)
    (ms : List String) (zL : ℚ) (conf : List ℤ) :
    lowStage computed (n :: ms) zL conf =
      lowStage computed ms zL (List.zipWith (lowPix zL) conf (zOf computed n)) := rfl

theorem medStage_length_le (computed : List (String × List Val × List Val))
    (ms : List String) (zM dM : ℚ) :
    ∀ conf : List ℤ, (medStage computed ms zM dM conf).length ≤ conf.length := by
  induction ms with
  | nil => intro conf; simp [medStage_nil]
  | cons n ms ih =>
    intro conf
    rw [medStage_cons]
    refine le_trans (ih _) ?_
    rw [zipWith3_length]
    omega

theorem lowStage_length_le (computed : List (String × List Val × List Val))
    (ms : List String) (zL : ℚ) :
    ∀ conf : List ℤ, (lowStage computed ms zL conf).length ≤ conf.length := by
  induction ms with
  | nil => intro conf; simp [lowStage_nil]
  | cons n ms ih =>
    intro conf
    rw [lowStage_cons]
    refine le_trans (ih _) ?_
    rw [List.length_zipWith]
    omega

/-- The high step either keeps a pixel's confidence or assigns 3. -/
theorem highStage_values (computed : List (String × List Val × List Val))
    (ms : List String) (zH dH : ℚ) (conf : List ℤ) (i : ℕ) (c c' : ℤ)
    (hc : conf[i]? = some c)
    (h : (highStage computed ms zH dH conf)[i]? = some c') :
    c' = c ∨ c' = 3 := by
  unfold highStage at h
  by_cases h2 : 2 ≤ ms.length
  · rw [if_pos h2, zipWith_getElem?, hc] at h
    cases hfl : (andG
        (ms.foldl (fun acc n => andG acc (ltG (zOf computed n) zH))
          (List.replicate conf.length true))
        (ms.foldl (fun acc n => andG acc (ltG (dOf computed n) dH))
          (List.replicate conf.length true)))[i]? with
    | none => rw [hfl] at h; simp at h
    | some fl =>
      rw [hfl] at h
      simp only [Option.some.injEq] at h
      cases fl with
      | true => right; simpa using h.symm
      | false => left; simpa using h.symm
  · rw [if_neg h2, hc] at h
    exact Or.inl (Option.some.inj h).symm

theorem medPix_zipWith3_values (zM dM : ℚ) (conf : List ℤ) (z d : List Val)
    (i : ℕ) (c c' : ℤ) (hc : conf[i]? = some c)
    (h : (zipWith3 (medPix zM dM) conf z d)[i]? = some c') :
    c' = c ∨ (c' = 2 ∧ c < 2) := by
  rw [zipWith3_getElem?, hc] at h
  cases hz : z[i]? with
  | none => rw [hz] at h; simp at h
  | some zv =>
    cases hd : d[i]? with
    | none => rw [hz, hd] at h; simp at h
    | some dv =>
      rw [hz, hd] at h
      simp only [Option.some.injEq] at h
      subst h
      unfold medPix
      by_cases hcond : (decide (c < 2) && (vlt zv zM || vlt dv dM)) = true
      · rw [if_pos hcond]
        simp only [Bool.and_eq_true, decide_eq_true_eq] at hcond
        exact Or.inr ⟨rfl, hcond.1⟩
      · rw [if_neg hcond]
        exact Or.inl rfl

/-- The medium step either keeps a pixel's confidence or assigns 2 to a
pixel currently below 2. -/
theorem medStage_values (computed : List (String × List Val × List Val))
    (ms : List String) (zM dM : ℚ) :
    ∀ (conf : List ℤ) (i : ℕ) (c c' : ℤ), conf[i]? = some c →
      (medStage computed ms zM dM conf)[i]? = some c' →
      c' = c ∨ (c' = 2 ∧ c < 2) := by
  induction ms with
  | nil =>
    intro conf i c c' hc h
    rw [medStage_nil, hc] at h
    exact Or.inl (Option.some.inj h).symm
  | cons n ms ih =>
    intro conf i c c' hc h
    rw [medStage_cons] at h
    have hi : i < (zipWith3 (medPix zM dM) conf (zOf computed n) (dOf computed n)).length := by
      have h1 : i < (medStage computed ms zM dM
          (zipWith3 (medPix zM dM) conf (zOf computed n) (dOf computed n))).length :=
        List.getElem?_eq_some_iff.mp h |>.1
      exact lt_of_lt_of_le h1 (medStage_length_le _ _ _ _ _)
    obtain ⟨c₁, hc₁⟩ : ∃ c₁,
        (zipWith3 (medPix zM dM) conf (zOf computed n) (dOf computed n))[i]? = some c₁ :=
      ⟨_, List.getElem?_eq_getElem hi⟩
    have step := medPix_zipWith3_values zM dM conf _ _ i c c₁ hc hc₁
    have rest := ih _ i c₁ c' hc₁ h
    rcases rest with rfl | ⟨rfl, hlt⟩
    · rcases step with rfl | ⟨rfl, hlt⟩
      · exact Or.inl rfl
      · exact Or.inr ⟨rfl, hlt⟩
    · rcases step with rfl | ⟨h2, _⟩
      · exact Or.inr ⟨rfl, hlt⟩
      · omega

theorem lowPix_zipWith_values (zL : ℚ) (conf : List ℤ) (z : List Val)
    (i : ℕ) (c c' : ℤ) (hc : conf[i]? = some c)
    (h : (List.zipWith (lowPix zL) conf z)[i]? = some c') :
    c' = c ∨ (c' = 1 ∧ c < 1) := by
  rw [zipWith_getElem?, hc] at h
  cases hz : z[i]? with
  | none => rw [hz] at h; simp at h
  | some zv =>
    rw [hz] at h
    simp only [Option.some.injEq] at h
    subst h
    unfold lowPix
    by_cases hcond : (decide (c < 1) && vlt zv zL) = true
    · rw [if_pos hcond]
      simp only [Bool.and_eq_true, decide_eq_true_eq] at hcond
      exact Or.inr ⟨rfl, hcond.1⟩
    · rw [if_neg hcond]
      exact Or.inl rfl

/-- The low step either keeps a pixel's confidence or assigns 1 to a pixel
currently below 1. -/
theorem lowStage_values (computed : List (String × List Val × List Val))
    (ms : List String) (zL : ℚ) :
    ∀ (conf : List ℤ) (i : ℕ) (c c' : ℤ), conf[i]? = some c →
      (lowStage computed ms zL conf)[i]? = some c' →
      c' = c ∨ (c' = 1 ∧ c < 1) := by
  induction ms with
  | nil =>
    intro conf i c c' hc h
    rw [lowStage_nil, hc] at h
    exact Or.inl (Option.some.inj h).symm
  | cons n ms ih =>
    intro conf i c c' hc h
    rw [lowStage_cons] at h
    have hi : i < (List.zipWith (lowPix zL) conf (zOf computed n)).length := by
      have h1 : i < (lowStage computed ms zL
          (List.zipWith (lowPix zL) conf (zOf computed n))).length :=
        List.getElem?_eq_some_iff.mp h |>.1
      exact lt_of_lt_of_le h1 (lowStage_length_le _ _ _ _)
    obtain ⟨c₁, hc₁⟩ : ∃ c₁, (List.zipWith (lowPix zL) conf (zOf computed n))[i]? = some c₁ :=
      ⟨_, List.getElem?_eq_getElem hi⟩
    have step := lowPix_zipWith_values zL conf _ i c c₁ hc hc₁
    have rest := ih _ i c₁ c' hc₁ h
    rcases rest with rfl | ⟨rfl, hlt⟩
    · rcases step with rfl | ⟨rfl, hlt⟩
      · exact Or.inl rfl
      · exact Or.inr ⟨rfl, hlt⟩
    · rcases step with rfl | ⟨h2, _⟩
      · exact Or.inr ⟨rfl, hlt⟩
      · omega

theorem highStage_length_le (computed : List (String × List Val × List Val))
    (ms : List String) (zH dH : ℚ) (conf : List ℤ) :
    (highStage computed ms zH dH conf).length ≤ conf.length := by
  unfold highStage
  by_cases h2 : 2 ≤ ms.length
  · rw [if_pos h2, List.length_zipWith]
    omega
  · rw [if_neg h2]

/-- Destructuring a successful run of `detect_deforestation`. -/
theorem detect_some_elim {currents means stds : GridMap} {spi3 : Option ℚ}
    {res : DetectResult}
    (h : detect_deforestation currents means stds spi3 = some res) :
    ∃ (first : String × List Val × List Val)
      (rest : List (String × List Val × List Val)),
      compZD means stds (currents.filter (fun p => (lookupGrid means p.1).isSome)) =
          some (first :: rest)
      ∧ res.confidence = classifyConfidence (first :: rest)
          ((currents.filter (fun p => (lookupGrid means p.1).isSome)).map (fun p => p.1))
          (((currents.filter (fun p => (lookupGrid means p.1).isSome)).map
              (fun p => p.1)).filter (fun n => n == "ndmi" || n == "nbr"))
          (zAdjOf spi3) (first.2.1.map (fun _ => 0))
      ∧ res.isAlert = res.confidence.map (fun c => decide (0 < c)) := by
  unfold detect_deforestation at h
  simp only [] at h
  cases hczd : compZD means stds
      (currents.filter (fun p => (lookupGrid means p.1).isSome)) with
  | none => rw [hczd] at h; simp at h
  | some computed =>
    rw [hczd] at h
    cases computed with
    | nil => simp at h
    | cons first rest =>
      simp only [Option.some.injEq] at h
      exact ⟨first, rest, rfl, by rw [← h], by rw [← h]⟩

/- ───────────────────────── Claim C3 ────────────────────────────────────── -/

/-- C3: within one run of the confidence classification each step only
raises confidence — the high step assigns 3, the medium step assigns 2 only
to pixels currently below 2, the low step assigns 1 only to pixels
currently below 1 — so the final confidence grid of a successful
`detect_deforestation` run takes values only in {0,1,2,3}, and the returned
`is_alert` mask equals `confidence > 0` pixelwise. -/
theorem detect_confidence_monotone :
    (∀ (computed : List (String × List Val × List Val)) (ms : List String)
        (zH dH : ℚ) (conf : List ℤ) (i : ℕ) (c c' : ℤ),
        conf[i]? = some c → (highStage computed ms zH dH conf)[i]? = some c' →
        c' = c ∨ c' = 3)
    ∧ (∀ (computed : List (String × List Val × List Val)) (ms : List String)
        (zM dM : ℚ) (conf : List ℤ) (i : ℕ) (c c' : ℤ),
        conf[i]? = some c → (medStage computed ms zM dM conf)[i]? = some c' →
        c' = c ∨ (c' = 2 ∧ c < 2))
    ∧ (∀ (computed : List (String × List Val × List Val)) (ms : List String)
        (zL : ℚ) (conf : List ℤ) (i : ℕ) (c c' : ℤ),
        conf[i]? = some c → (lowStage computed ms zL conf)[i]? = some c' →
        c' = c ∨ (c' = 1 ∧ c < 1))
    ∧ (∀ (currents means stds : GridMap) (spi3 : Option ℚ) (res : DetectResult),
        detect_deforestation currents means stds spi3 = some res →
        (∀ c ∈ res.confidence, c = 0 ∨ c = 1 ∨ c = 2 ∨ c = 3)
        ∧ res.isAlert = res.confidence.map (fun c => decide (0 < c))) := by
  refine ⟨highStage_values, fun computed ms zM dM conf i c c' hc h =>
      medStage_values computed ms zM dM conf i c c' hc h,
    fun computed ms zL conf i c c' hc h =>
      lowStage_values computed ms zL conf i c c' hc h, ?_⟩
  intro currents means stds spi3 res h
  obtain ⟨first, rest, hczd, hconf, halert⟩ := detect_some_elim h
  refine ⟨?_, halert⟩
  intro c hc
  rw [hconf] at hc
  rw [List.mem_iff_getElem] at hc
  obtain ⟨i, hi, hceq⟩ := hc
  unfold classifyConfidence at hi hceq
  set names := (currents.filter (fun p => (lookupGrid means p.1).isSome)).map
      (fun p => p.1) with hnames
  set moisture := names.filter (fun n => n == "ndmi" || n == "nbr") with hmoist
  set C0 : List ℤ := first.2.1.map (fun _ => 0) with hC0
  set C1 := highStage (first :: rest) moisture (Z_THRESHOLD_HIGH - zAdjOf spi3)
      DELTA_THRESHOLD_HIGH C0 with hC1
  set C2 := medStage (first :: rest) moisture (Z_THRESHOLD_MEDIUM - zAdjOf spi3)
      DELTA_THRESHOLD_MEDIUM C1 with hC2
  set C3 := lowStage (first :: rest) names (Z_THRESHOLD_LOW - zAdjOf spi3) C2 with hC3
  have hc3 : C3[i]? = some c := by
    rw [List.getElem?_eq_getElem hi, hceq]
  have hi2 : i < C2.length := lt_of_lt_of_le hi (lowStage_length_le _ _ _ _)
  have hi1 : i < C1.length := lt_of_lt_of_le hi2 (medStage_length_le _ _ _ _ _)
  have hi0 : i < C0.length := lt_of_lt_of_le hi1 (highStage_length_le _ _ _ _ _)
  have hc0 : C0[i]? = some 0 := by
    rw [List.getElem?_eq_getElem hi0]
    simp [hC0]
  obtain ⟨c1, hc1⟩ : ∃ c1, C1[i]? = some c1 := ⟨_, List.getElem?_eq_getElem hi1⟩
  obtain ⟨c2, hc2⟩ : ∃ c2, C2[i]? = some c2 := ⟨_, List.getElem?_eq_getElem hi2⟩
  have h1 := highStage_values _ _ _ _ _ _ _ _ hc0 hc1
  have h2 := medStage_values _ _ _ _ _ _ _ _ hc1 hc2
  have h3 := lowStage_values _ _ _ _ _ _ _ hc2 hc3
  omega

/-- Witness for `detect_confidence_monotone` on a concrete one-pixel scene. -/
theorem detect_confidence_monotone_witness :
    (∀ c ∈ (⟨[("ndmi", [some 0])], [("ndmi", [some 0])], [0], [false]⟩ :
        DetectResult).confidence, c = 0 ∨ c = 1 ∨ c = 2 ∨ c = 3)
    ∧ (⟨[("ndmi", [some 0])], [("ndmi", [some 0])], [0], [false]⟩ :
        DetectResult).isAlert =
      (⟨[("ndmi", [some 0])], [("ndmi", [some 0])], [0], [false]⟩ :
        DetectResult).confidence.map (fun c => decide (0 < c)) :=
  detect_confidence_monotone.2.2.2 [("ndmi", [some 0])] [("ndmi", [some 0])]
    [("ndmi", [some 1])] none
    ⟨[("ndmi", [some 0])], [("ndmi", [some 0])], [0], [false]⟩
    (by
      simp [detect_deforestation, compZD, lookupGrid, compute_zscore, compute_delta,
        zipWith3, zscorePix, vsub, safeStdPix, classifyConfidence, lowStage, medStage,
        highStage, medPix, lowPix, zOf, dOf, andG, ltG, vlt, zAdjOf,
        Z_THRESHOLD_LOW, Z_THRESHOLD_MEDIUM, Z_THRESHOLD_HIGH,
        DELTA_THRESHOLD_MEDIUM, DELTA_THRESHOLD_HIGH]
      norm_num)

/- ─────────────── helper lemmas for drought-threshold monotonicity ──────── -/

theorem vlt_mono {v : Val} {t t' : ℚ} (h : t ≤ t') (hv : vlt v t = true) :
    vlt v t' = true := by
  cases v with
  | none => simp [vlt] at hv
  | some x =>
    simp only [vlt, decide_eq_true_eq] at hv ⊢
    exact lt_of_lt_of_le hv h

theorem andG_getElem?_true (a b : List Bool) (i : ℕ) :
    (andG a b)[i]? = some true ↔ a[i]? = some true ∧ b[i]? = some true := by
  rw [andG, zipWith_getElem?]
  cases ha : a[i]? with
  | none => simp
  | some x =>
    cases hb : b[i]? with
    | none => simp
    | some y => cases x <;> cases y <;> simp

theorem ltG_getElem?_true (g : List Val) (t : ℚ) (i : ℕ) :
    (ltG g t)[i]? = some true ↔ ∃ v, g[i]? = some v ∧ vlt v t = true := by
  rw [ltG, List.getElem?_map]
  cases hg : g[i]? with
  | none => simp
  | some v => simp

theorem foldl_andG_true_iff (ms : List String) (g : String → List Val) (t : ℚ) :
    ∀ (acc : List Bool) (i : ℕ),
      ((ms.foldl (fun a n => andG a (ltG (g n) t)) acc)[i]? = some true
        ↔ acc[i]? = some true ∧ ∀ n ∈ ms, ∃ v, (g n)[i]? = some v ∧ vlt v t = true) := by
  induction ms with
  | nil => intro acc i; simp
  | cons n ms ih =>
    intro acc i
    rw [List.foldl_cons, ih, andG_getElem?_true, ltG_getElem?_true]
    constructor
    · rintro ⟨⟨hacc, v, hv, hvt⟩, hrest⟩
      exact ⟨hacc, fun m hm => by
        rcases List.mem_cons.mp hm with rfl | hm
        · exact ⟨v, hv, hvt⟩
        · exact hrest m hm⟩
    · rintro ⟨hacc, hall⟩
      exact ⟨⟨hacc, hall n (List.mem_cons_self n ms)⟩,
        fun m hm => hall m (List.mem_cons_of_mem n hm)⟩

theorem highStage_pos_mono (computed : List (String × List Val × List Val))
    (ms : List String) (t t' d : ℚ) (ht : t ≤ t') (conf conf' : List ℤ)
    (hlen : conf.length = conf'.length)
    (hinv : ∀ (i : ℕ) (a b : ℤ), conf[i]? = some a → conf'[i]? = some b →
      0 < a → 0 < b) :
    ∀ (i : ℕ) (a b : ℤ), (highStage computed ms t d conf)[i]? = some a →
      (highStage computed ms t' d conf')[i]? = some b → 0 < a → 0 < b := by
  intro i a b hda hdb hpos
  unfold highStage at hda hdb
  by_cases h2 : 2 ≤ ms.length
  · rw [if_pos h2, zipWith_getElem?] at hda hdb
    rcases hfl : (andG
        (ms.foldl (fun acc n => andG acc (ltG (zOf computed n) t))
          (List.replicate conf.length true))
        (ms.foldl (fun acc n => andG acc (ltG (dOf computed n) d))
          (List.replicate conf.length true)))[i]? with _ | fl
    · rw [hfl] at hda; simp at hda
    rcases hc : conf[i]? with _ | c
    · rw [hfl, hc] at hda; simp at hda
    rw [hfl, hc] at hda
    rcases hfl' : (andG
        (ms.foldl (fun acc n => andG acc (ltG (zOf computed n) t'))
          (List.replicate conf'.length true))
        (ms.foldl (fun acc n => andG acc (ltG (dOf computed n) d))
          (List.replicate conf'.length true)))[i]? with _ | fl'
    · rw [hfl'] at hdb; simp at hdb
    rcases hc' : conf'[i]? with _ | c'
    · rw [hfl', hc'] at hdb; simp at hdb
    rw [hfl', hc'] at hdb
    simp only [Option.some.injEq] at hda hdb
    subst hda
    subst hdb
    cases fl' with
    | true => simp
    | false =>
      cases fl with
      | true =>
        -- the drought-run flag holds, so the normal-run flag must hold too
        exfalso
        rw [andG_getElem?_true, foldl_andG_true_iff, foldl_andG_true_iff] at hfl
        obtain ⟨⟨hrep, hz⟩, hdl⟩ := hfl
        have hfl'2 : (andG
            (ms.foldl (fun acc n => andG acc (ltG (zOf computed n) t'))
              (List.replicate conf'.length true))
            (ms.foldl (fun acc n => andG acc (ltG (dOf computed n) d))
              (List.replicate conf'.length true)))[i]? = some true := by
          rw [andG_getElem?_true, foldl_andG_true_iff, foldl_andG_true_iff]
          rw [← hlen]
          exact ⟨⟨hrep, fun n hn => by
              obtain ⟨v, hv, hvt⟩ := hz n hn
              exact ⟨v, hv, vlt_mono ht hvt⟩⟩, hdl⟩
        rw [hfl'2] at hfl'
        simp at hfl'
      | false =>
        simp only [Bool.false_eq_true, if_false] at hpos ⊢
        exact hinv i c c' hc hc' hpos
  · rw [if_neg h2] at hda hdb
    exact hinv i a b hda hdb hpos

theorem medStage_pos_mono (computed : List (String × List Val × List Val))
    (ms : List String) (t t' d : ℚ) (ht : t ≤ t') :
    ∀ (conf conf' : List ℤ),
      (∀ (i : ℕ) (a b : ℤ), conf[i]? = some a → conf'[i]? = some b →
        0 < a → 0 < b) →
      ∀ (i : ℕ) (a b : ℤ), (medStage computed ms t d conf)[i]? = some a →
        (medStage computed ms t' d conf')[i]? = some b → 0 < a → 0 < b := by
  induction ms with
  | nil =>
    intro conf conf' hinv i a b ha hb
    rw [medStage_nil] at ha hb
    exact hinv i a b ha hb
  | cons n ms ih =>
    intro conf conf' hinv i a b ha hb
    rw [medStage_cons] at ha hb
    refine ih _ _ ?_ i a b ha hb
    intro j x y hx hy hxpos
    rw [zipWith3_getElem?] at hx hy
    rcases hc : conf[j]? with _ | c
    · rw [hc] at hx; simp at hx
    rcases hz : (zOf computed n)[j]? with _ | zv
    · rw [hc, hz] at hx; simp at hx
    rcases hd : (dOf computed n)[j]? with _ | dv
    · rw [hc, hz, hd] at hx; simp at hx
    rw [hc, hz, hd] at hx
    rcases hc' : conf'[j]? with _ | c'
    · rw [hc'] at hy; simp at hy
    rw [hc', hz, hd] at hy
    simp only [Option.some.injEq] at hx hy
    subst hx
    subst hy
    unfold medPix at hxpos ⊢
    by_cases hcond' : (decide (c' < 2) && (vlt zv t' || vlt dv d)) = true
    · rw [if_pos hcond']
      norm_num
    · rw [if_neg hcond']
      by_cases hcond : (decide (c < 2) && (vlt zv t || vlt dv d)) = true
      · rw [if_pos hcond] at hxpos
        -- the normal-run condition can only fail because `c' ≥ 2`
        simp only [Bool.and_eq_true, decide_eq_true_eq, Bool.or_eq_true] at hcond hcond'
        by_cases h2 : c' < 2
        · exfalso
          refine hcond' ⟨h2, ?_⟩
          rcases hcond.2 with hzz | hdd
          · exact Or.inl (vlt_mono ht hzz)
          · exact Or.inr hdd
        · omega
      · rw [if_neg hcond] at hxpos
        exact hinv j c c' hc hc' hxpos

theorem lowStage_pos_mono (computed : List (String × List Val × List Val))
    (ms : List String) (t t' : ℚ) (ht : t ≤ t') :
    ∀ (conf conf' : List ℤ),
      (∀ (i : ℕ) (a b : ℤ), conf[i]? = some a → conf'[i]? = some b →
        0 < a → 0 < b) →
      ∀ (i : ℕ) (a b : ℤ), (lowStage computed ms t conf)[i]? = some a →
        (lowStage computed ms t' conf')[i]? = some b → 0 < a → 0 < b := by
  induction ms with
  | nil =>
    intro conf conf' hinv i a b ha hb
    rw [lowStage_nil] at ha hb
    exact hinv i a b ha hb
  | cons n ms ih =>
    intro conf conf' hinv i a b ha hb
    rw [lowStage_cons] at ha hb
    refine ih _ _ ?_ i a b ha hb
    intro j x y hx hy hxpos
    rw [zipWith_getElem?] at hx hy
    rcases hc : conf[j]? with _ | c
    · rw [hc] at hx; simp at hx
    rcases hz : (zOf computed n)[j]? with _ | zv
    · rw [hc, hz] at hx; simp at hx
    rw [hc, hz] at hx
    rcases hc' : conf'[j]? with _ | c'
    · rw [hc'] at hy; simp at hy
    rw [hc', hz] at hy
    simp only [Option.some.injEq] at hx hy
    subst hx
    subst hy
    unfold lowPix at hxpos ⊢
    by_cases hcond' : (decide (c' < 1) && vlt zv t') = true
    · rw [if_pos hcond']
      norm_num
    · rw [if_neg hcond']
      by_cases hcond : (decide (c < 1) && vlt zv t) = true
      · rw [if_pos hcond] at hxpos
        simp only [Bool.and_eq_true, decide_eq_true_eq] at hcond hcond'
        by_cases h1 : c' < 1
        · exact absurd ⟨h1, vlt_mono ht hcond.2⟩ hcond'
        · omega
      · rw [if_neg hcond] at hxpos
        exact hinv j c c' hc hc' hxpos

theorem foldl_andG_length (ms : List String) (g : String → List Val) (t : ℚ) :
    ∀ acc : List Bool,
      (ms.foldl (fun a n => andG a (ltG (g n) t)) acc).length =
        ms.foldl (fun L n => min L (g n).length) acc.length := by
  induction ms with
  | nil => intro acc; rfl
  | cons n ms ih =>
    intro acc
    rw [List.foldl_cons, List.foldl_cons, ih, andG, List.length_zipWith, ltG,
      List.length_map]

theorem andG_length (a b : List Bool) : (andG a b).length = min a.length b.length :=
  List.length_zipWith _ _ _

theorem highStage_length_congr (computed : List (String × List Val × List Val))
    (ms : List String) (t t' d d' : ℚ) (conf conf' : List ℤ)
    (h : conf.length = conf'.length) :
    (highStage computed ms t d conf).length =
      (highStage computed ms t' d' conf').length := by
  unfold highStage
  by_cases h2 : 2 ≤ ms.length
  · rw [if_pos h2, if_pos h2, List.length_zipWith, List.length_zipWith,
      andG_length, andG_length, foldl_andG_length, foldl_andG_length,
      foldl_andG_length, foldl_andG_length, h]
  · rw [if_neg h2, if_neg h2, h]

theorem medStage_length_congr (computed : List (String × List Val × List Val))
    (ms : List String) (t t' d d' : ℚ) :
    ∀ (conf conf' : List ℤ), conf.length = conf'.length →
      (medStage computed ms t d conf).length =
        (medStage computed ms t' d' conf').length := by
  induction ms with
  | nil => intro conf conf' h; rw [medStage_nil, medStage_nil]; exact h
  | cons n ms ih =>
    intro conf conf' h
    rw [medStage_cons, medStage_cons]
    exact ih _ _ (by rw [zipWith3_length, zipWith3_length, h])

theorem lowStage_length_congr (computed : List (String × List Val × List Val))
    (ms : List String) (t t' : ℚ) :
    ∀ (conf conf' : List ℤ), conf.length = conf'.length →
      (lowStage computed ms t conf).length =
        (lowStage computed ms t' conf').length := by
  induction ms with
  | nil => intro conf conf' h; rw [lowStage_nil, lowStage_nil]; exact h
  | cons n ms ih =>
    intro conf conf' h
    rw [lowStage_cons, lowStage_cons]
    exact ih _ _ (by rw [List.length_zipWith, List.length_zipWith, h])

theorem countP_le_pointwise :
    ∀ (l l' : List ℤ), l.length = l'.length →
      (∀ (i : ℕ) (a b : ℤ), l[i]? = some a → l'[i]? = some b → 0 < a → 0 < b) →
      l.countP (fun c => decide (0 < c)) ≤ l'.countP (fun c => decide (0 < c)) := by
  intro l
  induction l with
  | nil => intro l' _ _; simp
  | cons a l ih =>
    intro l' hlen hinv
    cases l' with
    | nil => simp at hlen
    | cons b l' =>
      rw [List.countP_cons, List.countP_cons]
      have htail := ih l' (by simpa using hlen)
        (fun i x y hx hy => hinv (i + 1) x y (by simpa using hx) (by simpa using hy))
      have hhead : (if decide (0 < a) = true then 1 else 0) ≤
          (if decide (0 < b) = true then 1 else 0) := by
        by_cases hb : 0 < b
        · have h1 : (if decide (0 < b) = true then 1 else 0) = 1 := by simp [hb]
          rw [h1]
          split <;> omega
        · have ha : ¬ 0 < a := fun hpa => hb (hinv 0 a b (by simp) (by simp) hpa)
          simp [ha, hb]
      omega

/- ───────────────────────── Claim C2 ────────────────────────────────────── -/

/-- C2: on any fixed current grids and baselines, running the detection with
`spi_3month = -1.5` (drought: every z threshold widened by 0.5σ toward the
negative) yields an alert count less than or equal to the count of the run
with `spi_3month = 0.0`.  (When the run raises, both runs raise identically
and both counts are 0.) -/
theorem detect_drought_fewer_alerts (currents means stds : GridMap) :
    alertCount (detect_deforestation currents means stds (some (-3/2))) ≤
      alertCount (detect_deforestation currents means stds (some 0)) := by
  unfold detect_deforestation
  simp only []
  cases hczd : compZD means stds
      (currents.filter (fun p => (lookupGrid means p.1).isSome)) with
  | none => exact le_refl _
  | some computed =>
    cases computed with
    | nil => exact le_refl _
    | cons first rest =>
      simp only [alertCount]
      have hadjd : zAdjOf (some (-3/2)) = 1/2 := by
        unfold zAdjOf SPI_DROUGHT_THRESHOLD DROUGHT_Z_ADJUSTMENT
        norm_num
      have hadjn : zAdjOf (some 0) = 0 := by
        unfold zAdjOf SPI_DROUGHT_THRESHOLD
        norm_num
      rw [hadjd, hadjn]
      unfold classifyConfidence
      set names := (currents.filter (fun p => (lookupGrid means p.1).isSome)).map
          (fun p => p.1) with hnames
      set moisture := names.filter (fun n => n == "ndmi" || n == "nbr") with hmoist
      set C0 : List ℤ := first.2.1.map (fun _ => 0) with hC0
      have hhlen : (highStage (first :: rest) moisture (Z_THRESHOLD_HIGH - 1/2)
          DELTA_THRESHOLD_HIGH C0).length =
          (highStage (first :: rest) moisture (Z_THRESHOLD_HIGH - 0)
            DELTA_THRESHOLD_HIGH C0).length :=
        highStage_length_congr _ _ _ _ _ _ _ _ rfl
      have hmlen := medStage_length_congr (first :: rest) moisture
        (Z_THRESHOLD_MEDIUM - 1/2) (Z_THRESHOLD_MEDIUM - 0)
        DELTA_THRESHOLD_MEDIUM DELTA_THRESHOLD_MEDIUM _ _ hhlen
      have hllen := lowStage_length_congr (first :: rest) names
        (Z_THRESHOLD_LOW - 1/2) (Z_THRESHOLD_LOW - 0) _ _ hmlen
      have hhmono := highStage_pos_mono (first :: rest) moisture
        (Z_THRESHOLD_HIGH - 1/2) (Z_THRESHOLD_HIGH - 0) DELTA_THRESHOLD_HIGH
        (by norm_num) C0 C0 rfl
        (fun i a b ha hb hpos => by rw [ha] at hb; injection hb with hb; omega)
      have hmmono := medStage_pos_mono (first :: rest) moisture
        (Z_THRESHOLD_MEDIUM - 1/2) (Z_THRESHOLD_MEDIUM - 0) DELTA_THRESHOLD_MEDIUM
        (by norm_num) _ _ hhmono
      have hlmono := lowStage_pos_mono (first :: rest) names
        (Z_THRESHOLD_LOW - 1/2) (Z_THRESHOLD_LOW - 0)
        (by norm_num) _ _ hmmono
      have := countP_le_pointwise _ _ hllen hlmono
      simpa [List.count, List.countP_map] using this

/- ───────────────────────── Claim C5 ────────────────────────────────────── -/

/-- C5 counterexample: the strictly increasing four-point series
`[1,2,3,4]` has `tau = 1` but is NOT significant (`z = 5/√(26/3) ≈ 1.698`,
`p ≈ 0.089 ≥ 0.05`), so the trend label is `"no_trend"`, contradicting the
claim that every strictly increasing series with at least 4 values yields
`significant=True` and `trend="increasing"`. -/
theorem mann_kendall_four_not_significant :
    (mann_kendall_test [some 1, some 2, some 3, some 4]).tau = 1
    ∧ (mann_kendall_test [some 1, some 2, some 3, some 4]).significant = false
    ∧ (mann_kendall_test [some 1, some 2, some 3, some 4]).trend = "no_trend" := by
  have h : mann_kendall_test [some 1, some 2, some 3, some 4] =
      { tau := 1, p_value := none, trend := "no_trend",
        significant := false, n := 4 } := by
    unfold mann_kendall_test
    norm_num [signSum, varSOf, tiedGroupSizes, mk_significant, zcritSq,
      List.dedup_cons_of_not_mem, List.count_cons, List.filterMap]
  rw [h]
  exact ⟨rfl, rfl, rfl⟩

theorem filterMap_id_map_some (l : List ℚ) : (l.map some).filterMap id = l := by
  induction l with
  | nil => rfl
  | cons x xs ih => simp [List.filterMap_cons, ih]

theorem sum_map_one (xs : List ℚ) : (xs.map (fun _ => (1 : ℤ))).sum = xs.length := by
  induction xs with
  | nil => rfl
  | cons a l ih =>
    rw [List.map_cons, List.sum_cons, ih, List.length_cons]
    push_cast
    ring

theorem signSum_pairwise (l : List ℚ) (hp : l.Pairwise (· < ·)) :
    signSum l = (l.length.choose 2 : ℤ) := by
  induction l with
  | nil => rfl
  | cons x xs ih =>
    rw [List.pairwise_cons] at hp
    have hmap : xs.map (fun y => if x < y then (1 : ℤ) else if y < x then -1 else 0)
        = xs.map (fun _ => 1) := by
      apply List.map_congr_left
      intro y hy
      rw [if_pos (hp.1 y hy)]
    rw [signSum, hmap, ih hp.2, sum_map_one]
    rw [List.length_cons, Nat.choose_succ_succ, Nat.choose_one_right]
    push_cast
    ring

theorem tiedGroupSizes_pairwise (l : List ℚ) (hp : l.Pairwise (· < ·)) :
    tiedGroupSizes l = [] := by
  have hnd : l.Nodup := List.Pairwise.imp ne_of_lt hp
  unfold tiedGroupSizes
  rw [List.dedup_eq_self.mpr hnd, List.filter_eq_nil_iff]
  intro t ht
  obtain ⟨v, hv, rfl⟩ := List.mem_map.mp ht
  rw [List.count_eq_one_of_mem hnd hv]
  simp

theorem mk_significant_increasing (n : ℕ) (hn : 5 ≤ n) :
    mk_significant (n.choose 2 : ℤ)
      (((n : ℚ) * ((n : ℚ) - 1) * (2 * (n : ℚ) + 5)) / 18) = true := by
  have hq : (5 : ℚ) ≤ (n : ℚ) := by exact_mod_cast hn
  have hvar : 0 < ((n : ℚ) * ((n : ℚ) - 1) * (2 * (n : ℚ) + 5)) / 18 :=
    div_pos (mul_pos (mul_pos (by linarith) (by linarith)) (by linarith)) (by norm_num)
  have hs : 0 < (n.choose 2 : ℤ) := by exact_mod_cast Nat.choose_pos (by omega)
  unfold mk_significant
  rw [if_pos hvar, if_pos hs]
  simp only [decide_eq_true_eq]
  have hcast : ((n.choose 2 : ℤ) : ℚ) = (n : ℚ) * ((n : ℚ) - 1) / 2 := by
    rw [Int.cast_natCast, Nat.cast_choose_two]
  rw [hcast, zcritSq]
  nlinarith [hq, sq_nonneg ((n : ℚ) - 5), sq_nonneg ((n : ℚ) * ((n : ℚ) - 1) - 20)]

/-- C5 amended: on a strictly increasing series the Mann-Kendall test
returns `tau = 1`, and it is significant with `trend = "increasing"` as
soon as the series has at least **5** values (at exactly 4 the
continuity-corrected z is ≈1.698, below the 0.05 critical value, giving
`"no_trend"`); a series with fewer than 4 valid values yields
`trend = "insufficient_data"` with `tau = 0` and `p_value = 1`. -/
theorem mann_kendall_increasing_series :
    (∀ l : List ℚ, 5 ≤ l.length → l.Pairwise (· < ·) →
      (mann_kendall_test (l.map some)).tau = 1
      ∧ (mann_kendall_test (l.map some)).significant = true
      ∧ (mann_kendall_test (l.map some)).trend = "increasing")
    ∧ (∀ values : List Val, (values.filterMap id).length < 4 →
      mann_kendall_test values =
        { tau := 0, p_value := some 1, trend := "insufficient_data",
          significant := false, n := (values.filterMap id).length }) := by
  constructor
  · intro l hlen hp
    unfold mann_kendall_test
    simp only [filterMap_id_map_some]
    rw [if_neg (by omega : ¬ l.length < 4)]
    simp only []
    have hq : (5 : ℚ) ≤ (l.length : ℚ) := by exact_mod_cast hlen
    have hvarS : varSOf l.length l =
        ((l.length : ℚ) * ((l.length : ℚ) - 1) * (2 * (l.length : ℚ) + 5)) / 18 := by
      unfold varSOf
      rw [tiedGroupSizes_pairwise l hp]
      simp
    have hsig := mk_significant_increasing l.length hlen
    rw [signSum_pairwise l hp, hvarS]
    have htau : (((l.length.choose 2 : ℤ) : ℚ)) /
        ((l.length : ℚ) * ((l.length : ℚ) - 1) / 2) = 1 := by
      rw [Int.cast_natCast, Nat.cast_choose_two]
      exact div_self (by nlinarith)
    refine ⟨htau, hsig, ?_⟩
    rw [hsig, if_pos rfl, htau, if_pos (by norm_num : (0 : ℚ) < 1)]
  · intro values hlt
    unfold mann_kendall_test
    rw [if_pos hlt]

/-- Witness for `mann_kendall_increasing_series` on `[0,1,2,3,4]` and a
one-point series. -/
theorem mann_kendall_increasing_series_witness :
    ((mann_kendall_test ([(0 : ℚ), 1, 2, 3, 4].map some)).tau = 1
      ∧ (mann_kendall_test ([(0 : ℚ), 1, 2, 3, 4].map some)).significant = true
      ∧ (mann_kendall_test ([(0 : ℚ), 1, 2, 3, 4].map some)).trend = "increasing")
    ∧ mann_kendall_test [some 1] =
        { tau := 0, p_value := some 1, trend := "insufficient_data",
          significant := false, n := ([some (1 : ℚ)].filterMap id).length } :=
  ⟨mann_kendall_increasing_series.1 [0, 1, 2, 3, 4] (by norm_num)
      (by norm_num [List.pairwise_cons]),
   mann_kendall_increasing_series.2 [some 1] (by simp [List.filterMap])⟩

/- ───────────────────────── Claim C10 ───────────────────────────────────── -/

theorem pairwiseSlopes_const_nil :
    ∀ l : List (ℚ × ℚ), (∀ a ∈ l, ∀ b ∈ l, a.1 = b.1) → pairwiseSlopes l = [] := by
  intro l
  induction l with
  | nil => intro _; rfl
  | cons p rest ih =>
    intro h
    rw [pairwiseSlopes.eq_def]
    cases p with
    | mk t1 y1 =>
      simp only []
      rw [List.filterMap_eq_nil_iff.mpr, List.nil_append]
      · exact ih (fun a ha b hb =>
          h a (List.mem_cons_of_mem _ ha) b (List.mem_cons_of_mem _ hb))
      · intro q hq
        have hq1 : q.1 = t1 :=
          h q (List.mem_cons_of_mem _ hq) (t1, y1) (List.mem_cons_self _ _)
        rw [if_neg]
        rw [hq1]
        exact lt_irrefl t1

theorem zip_filterMap_length :
    ∀ (ds : List ℚ) (vs : List Val), ds.length = vs.length →
      ((ds.zip vs).filterMap (fun p => p.2.map (fun v => (p.1, v)))).length =
        (vs.filterMap id).length := by
  intro ds
  induction ds with
  | nil =>
    intro vs h
    cases vs with
    | nil => rfl
    | cons v vs => simp at h
  | cons d ds ih =>
    intro vs h
    cases vs with
    | nil => simp at h
    | cons v vs =>
      cases v with
      | none => simpa using ih vs (by simpa using h)
      | some x => simpa using ih vs (by simpa using h)

/-- C10: `sens_slope` forms pairwise slopes only over strictly positive time
separations, so when all (valid) dates coincide the slope list is empty and
the function returns all zeros — no division by a zero time difference —
and it likewise returns all zeros for fewer than 3 valid observations. -/
theorem sens_slope_degenerate :
    (∀ (sqrtA : ℚ → ℚ) (dates : List ℚ) (values : List Val),
      (∀ x ∈ dates, ∀ y ∈ dates, x = y) →
      sens_slope sqrtA dates values = ⟨0, 0, 0, 0⟩)
    ∧ (∀ (sqrtA : ℚ → ℚ) (dates : List ℚ) (values : List Val),
      dates.length = values.length → (values.filterMap id).length < 3 →
      sens_slope sqrtA dates values = ⟨0, 0, 0, 0⟩) := by
  constructor
  · intro sqrtA dates values hdates
    unfold sens_slope
    by_cases hn : ((dates.zip values).filterMap
        (fun p => p.2.map (fun v => (p.1, v)))).length < 3
    · rw [if_pos hn]
    · rw [if_neg hn]
      have hfst : ∀ q ∈ (dates.zip values).filterMap
          (fun p => p.2.map (fun v => (p.1, v))), q.1 ∈ dates := by
        intro q hq
        obtain ⟨p, hp, hpq⟩ := List.mem_filterMap.mp hq
        cases hv : p.2 with
        | none => rw [hv] at hpq; simp at hpq
        | some x =>
          rw [hv, Option.map_some'] at hpq
          have h1 := Option.some.inj hpq
          rw [← h1]
          exact (List.of_mem_zip hp).1
      have hconst : ∀ a ∈ ((dates.zip values).filterMap
            (fun p => p.2.map (fun v => (p.1, v)))).map
            (fun p => ((p.1 - ((((dates.zip values).filterMap
              (fun p => p.2.map (fun v => (p.1, v)))).head?.map
                (fun p => p.1)).getD 0)) / ((36525/100) * 86400), p.2)),
          ∀ b ∈ ((dates.zip values).filterMap
            (fun p => p.2.map (fun v => (p.1, v)))).map
            (fun p => ((p.1 - ((((dates.zip values).filterMap
              (fun p => p.2.map (fun v => (p.1, v)))).head?.map
                (fun p => p.1)).getD 0)) / ((36525/100) * 86400), p.2)),
          a.1 = b.1 := by
        intro a ha b hb
        obtain ⟨pa, hpa, hpaa⟩ := List.mem_map.mp ha
        obtain ⟨pb, hpb, hpbb⟩ := List.mem_map.mp hb
        rw [← hpaa, ← hpbb]
        simp only []
        rw [hdates pa.1 (hfst pa hpa) pb.1 (hfst pb hpb)]
      simp only []
      rw [pairwiseSlopes_const_nil _ hconst]
      simp
  · intro sqrtA dates values hlen hvalid
    unfold sens_slope
    rw [if_pos]
    rw [zip_filterMap_length dates values hlen]
    exact hvalid

/-- Witness for `sens_slope_degenerate` at concrete degenerate inputs. -/
theorem sens_slope_degenerate_witness :
    sens_slope (fun q => q) [7, 7, 7] [some 1, some 2, some 3] = ⟨0, 0, 0, 0⟩
    ∧ sens_slope (fun q => q) [0] [none] = ⟨0, 0, 0, 0⟩ :=
  ⟨sens_slope_degenerate.1 (fun q => q) [7, 7, 7] [some 1, some 2, some 3]
      (by intro x hx y hy; simp at hx hy; rw [hx, hy]),
   sens_slope_degenerate.2 (fun q => q) [0] [none] rfl
      (by simp [List.filterMap])⟩

/- ───────────────────────── Claim C6 ────────────────────────────────────── -/

/-- C6 counterexample: on `spiCexInput` the non-zero reference values are
ten (so the `< 10` fallback does not apply) and constant, so
`np.std(ref_nonzero) < 1e-10` holds and the code returns exactly `0.0`.
The claim says this case returns the z-score `(target − mean)/std` of the
cleaned reference — but here `target − mean = 5 − 10/3 = 5/3 ≠ 0` and the
cleaned-reference variance is `50/9 > 0`, so that claimed value is nonzero:
the near-zero-variance branch does not return the z-score fallback. -/
theorem compute_spi_varzero_counterexample :
    compute_spi (fun _ => none) (fun _ _ _ => 0) (fun q => q) (fun q => q)
        spiCexInput none = 0
    ∧ 10 ≤ ((spiCexInput.filterMap id).filter (fun x => 0 < x)).length
    ∧ variance ((spiCexInput.filterMap id).filter (fun x => 0 < x)) = 0
    ∧ (5 : ℚ) - meanQ (spiCexInput.filterMap id) ≠ 0
    ∧ 0 < variance (spiCexInput.filterMap id)
    ∧ spiCexInput.getLast? = some (some 5) := by
  refine ⟨?_, ?_, ?_, ?_, ?_, ?_⟩
  · norm_num [compute_spi, spiCexInput, List.filterMap, List.filter, variance,
      meanQ]
  · norm_num [spiCexInput, List.filterMap, List.filter]
  · norm_num [spiCexInput, List.filterMap, List.filter, variance, meanQ]
  · norm_num [spiCexInput, List.filterMap, meanQ]
  · norm_num [spiCexInput, List.filterMap, variance, meanQ]
  · norm_num [spiCexInput]

/-- C6 amended: the SPI fallback chain as implemented — a NaN target yields
exactly 0.0 before any fitting; fewer than 10 non-zero reference values
yield the plain z-score of the cleaned reference (with mean 0 for an empty
reference, std 1 for fewer than 2 values, and 0 when std is not positive);
near-zero non-zero-reference deviation (`np.std < 1e-10`) yields exactly
0.0 (not the z-score); a failed gamma fit yields the plain z-score
fallback; and `compute_spi_3month` returns exactly 0.0 for fewer than 3
monthly values. -/
theorem compute_spi_fallback_chain :
    (∀ (gf : List ℚ → Option (ℚ × ℚ)) (gc : ℚ → ℚ → ℚ → ℚ) (pf sq : ℚ → ℚ)
        (precip : List Val) (refp : Option (List Val)),
      precip.getLast? = some none →
      compute_spi gf gc pf sq precip refp = 0)
    ∧ (∀ (gf : List ℚ → Option (ℚ × ℚ)) (gc : ℚ → ℚ → ℚ → ℚ) (pf sq : ℚ → ℚ)
        (precip : List Val) (refp : Option (List Val)) (tgt : ℚ),
      precip.getLast? = some (some tgt) →
      (((refp.getD precip).filterMap id).filter (fun x => 0 < x)).length < 10 →
      compute_spi gf gc pf sq precip refp =
        (if 0 < (if 1 < ((refp.getD precip).filterMap id).length then
            sq (variance ((refp.getD precip).filterMap id)) else 1) then
          (tgt - (if 0 < ((refp.getD precip).filterMap id).length then
            meanQ ((refp.getD precip).filterMap id) else 0)) /
            (if 1 < ((refp.getD precip).filterMap id).length then
              sq (variance ((refp.getD precip).filterMap id)) else 1)
         else 0))
    ∧ (∀ (gf : List ℚ → Option (ℚ × ℚ)) (gc : ℚ → ℚ → ℚ → ℚ) (pf sq : ℚ → ℚ)
        (precip : List Val) (refp : Option (List Val)) (tgt : ℚ),
      precip.getLast? = some (some tgt) →
      10 ≤ (((refp.getD precip).filterMap id).filter (fun x => 0 < x)).length →
      sq (variance (((refp.getD precip).filterMap id).filter (fun x => 0 < x)))
        < 1/10000000000 →
      compute_spi gf gc pf sq precip refp = 0)
    ∧ (∀ (gf : List ℚ → Option (ℚ × ℚ)) (gc : ℚ → ℚ → ℚ → ℚ) (pf sq : ℚ → ℚ)
        (precip : List Val) (refp : Option (List Val)) (tgt : ℚ),
      precip.getLast? = some (some tgt) →
      10 ≤ (((refp.getD precip).filterMap id).filter (fun x => 0 < x)).length →
      ¬ (sq (variance (((refp.getD precip).filterMap id).filter (fun x => 0 < x)))
          < 1/10000000000) →
      gf (((refp.getD precip).filterMap id).filter (fun x => 0 < x)) = none →
      compute_spi gf gc pf sq precip refp =
        (if 0 < sq (variance ((refp.getD precip).filterMap id)) then
          (tgt - meanQ ((refp.getD precip).filterMap id)) /
            sq (variance ((refp.getD precip).filterMap id))
         else 0))
    ∧ (∀ (gf : List ℚ → Option (ℚ × ℚ)) (gc : ℚ → ℚ → ℚ → ℚ) (pf sq : ℚ → ℚ)
        (monthly : List Val), monthly.length < 3 →
      compute_spi_3month gf gc pf sq monthly = 0) := by
  refine ⟨?_, ?_, ?_, ?_, ?_⟩
  · intro gf gc pf sq precip refp hlast
    unfold compute_spi
    rw [hlast]
    simp
  · intro gf gc pf sq precip refp tgt hlast hfew
    unfold compute_spi
    rw [hlast]
    simp only [Option.getD_some]
    rw [if_pos hfew]
  · intro gf gc pf sq precip refp tgt hlast hmany hvar
    unfold compute_spi
    rw [hlast]
    simp only [Option.getD_some]
    rw [if_neg (not_lt.mpr hmany), if_pos hvar]
  · intro gf gc pf sq precip refp tgt hlast hmany hvar hfit
    unfold compute_spi
    rw [hlast]
    simp only [Option.getD_some]
    rw [if_neg (not_lt.mpr hmany), if_neg hvar, hfit]
  · intro gf gc pf sq monthly hlt
    unfold compute_spi_3month
    rw [if_pos hlt]

/-- Witness for `compute_spi_fallback_chain` at concrete inputs. -/
theorem compute_spi_fallback_chain_witness :
    compute_spi (fun _ => none) (fun _ _ _ => 0) (fun q => q) (fun q => q)
        [none] none = 0
    ∧ compute_spi (fun _ => none) (fun _ _ _ => 0) (fun q => q) (fun q => q)
        [some 1] none =
        (if 0 < (if 1 < ((((none : Option (List Val)).getD [some 1]).filterMap id).length) then
            (fun q => q) (variance (((none : Option (List Val)).getD [some 1]).filterMap id)) else 1) then
          ((1 : ℚ) - (if 0 < ((((none : Option (List Val)).getD [some 1]).filterMap id).length) then
            meanQ (((none : Option (List Val)).getD [some 1]).filterMap id) else 0)) /
            (if 1 < ((((none : Option (List Val)).getD [some 1]).filterMap id).length) then
              (fun q => q) (variance (((none : Option (List Val)).getD [some 1]).filterMap id)) else 1)
         else 0)
    ∧ compute_spi_3month (fun _ => none) (fun _ _ _ => 0) (fun q => q)
        (fun q => q) [some 1] = 0 :=
  ⟨compute_spi_fallback_chain.1 (fun _ => none) (fun _ _ _ => 0) (fun q => q)
      (fun q => q) [none] none rfl,
   compute_spi_fallback_chain.2.1 (fun _ => none) (fun _ _ _ => 0) (fun q => q)
      (fun q => q) [some 1] none 1 rfl (by norm_num [List.filterMap, List.filter]),
   compute_spi_fallback_chain.2.2.2.2 (fun _ => none) (fun _ _ _ => 0)
      (fun q => q) (fun q => q) [some 1] (by norm_num)⟩

/- ───────────────────────── Claim C8 ────────────────────────────────────── -/

theorem breakLoop_unflagged (predict : ℚ → ℚ) (threshold : ℚ) (nCons : ℕ) :
    ∀ (pre rest : List (ℚ × Val)),
      (∀ p ∈ pre, flaggedObs predict threshold p = false) →
      breakLoop predict threshold nCons (pre ++ rest) 0 none =
        breakLoop predict threshold nCons rest 0 none := by
  intro pre
  induction pre with
  | nil => intro rest _; rfl
  | cons p pre ih =>
    intro rest hall
    obtain ⟨d, v⟩ := p
    rw [List.cons_append]
    cases v with
    | none =>
      rw [breakLoop]
      exact ih rest (fun q hq => hall q (List.mem_cons_of_mem _ hq))
    | some x =>
      have hflag := hall (d, some x) (List.mem_cons_self _ _)
      rw [flaggedObs] at hflag
      simp only [decide_eq_false_iff_not] at hflag
      rw [breakLoop, if_neg hflag]
      exact ih rest (fun q hq => hall q (List.mem_cons_of_mem _ hq))

/-- C8: with the default `n_consecutive = 3`, a monitoring period whose
flag pattern is a single run of exactly three consecutive flagged,
non-missing observations (everything before and after unflagged — a stable
signal with three large outliers) yields exactly one breakpoint, carrying
the first outlier's date, value, expected value, and anomaly. -/
theorem detect_breaks_single_run (predict : ℚ → ℚ) (rm : ℚ)
    (dates : List ℚ) (values : List Val) (historyEnd tf : ℚ)
    (pre post : List (ℚ × Val)) (d1 d2 d3 x1 x2 x3 : ℚ)
    (hsplit : monitorOf dates values historyEnd =
      pre ++ [(d1, some x1), (d2, some x2), (d3, some x3)] ++ post)
    (hpre : ∀ p ∈ pre, flaggedObs predict (tf * rm) p = false)
    (hpost : ∀ p ∈ post, flaggedObs predict (tf * rm) p = false)
    (h1 : tf * rm < |x1 - predict d1|)
    (h2 : tf * rm < |x2 - predict d2|)
    (h3 : tf * rm < |x3 - predict d3|) :
    detect_breaks_harmonic predict (some rm) dates values historyEnd tf 3 =
      [⟨d1, x1, predict d1, x1 - predict d1⟩] := by
  rw [detect_breaks_harmonic]
  rw [hsplit, List.append_assoc, breakLoop_unflagged predict (tf * rm) 3 pre _ hpre]
  rw [List.cons_append, breakLoop, if_pos h1]
  simp only [Option.getD_none]
  rw [if_neg (by omega : ¬ (3 ≤ 0 + 1))]
  rw [List.cons_append, breakLoop, if_pos h2]
  simp only [Option.getD_some]
  rw [if_neg (by omega : ¬ (3 ≤ 1 + 1))]
  rw [List.singleton_append, breakLoop, if_pos h3]
  simp only [Option.getD_some]
  rw [if_pos (by omega : 3 ≤ 2 + 1)]
  have hnil := breakLoop_unflagged predict (tf * rm) 3 post [] hpost
  rw [List.append_nil] at hnil
  rw [hnil]
  rfl

/-- Witness for `detect_breaks_single_run`: a five-observation monitoring
period (history ends at time 0) with outliers at times 2, 3, 4 on a
constant-zero model with RMSE 1. -/
theorem detect_breaks_single_run_witness :
    detect_breaks_harmonic (fun _ => 0) (some 1) [1, 2, 3, 4, 5]
      [some 0, some 10, some 10, some 10, some 0] 0 3 3 =
      [⟨2, 10, 0, 10⟩] := by
  have h := detect_breaks_single_run (fun _ => 0) 1 [1, 2, 3, 4, 5]
    [some 0, some 10, some 10, some 10, some 0] 0 3
    [(1, some 0)] [(5, some 0)] 2 3 4 10 10 10
    (by norm_num [monitorOf, List.filter])
    (by
      intro p hp
      simp only [List.mem_singleton] at hp
      rw [hp]
      norm_num [flaggedObs])
    (by
      intro p hp
      simp only [List.mem_singleton] at hp
      rw [hp]
      norm_num [flaggedObs])
    (by norm_num) (by norm_num) (by norm_num)
  rw [h]
  norm_num

/- ───────────────────────── Claim C7 ────────────────────────────────────── -/

/-- C7 counterexample: `area_ha` is stored rounded to 2 decimals, so a row's
`area_ha` can undershoot `min_area_ha`.  A single alert pixel of
100.2 m × 100.2 m has true area 1.004004 ha ≥ min_area_ha = 1.003 ha and
survives the filter, but its stored `area_ha` is `round(1.004004, 2) = 1.0`,
which is `< 1.003`: the claim "every row has area_ha ≥ min_area_ha" fails. -/
theorem vectorize_alerts_area_counterexample :
    vectorize_alerts [[3]] (1002/10) (1002/10) 1 (1003/1000) = [⟨[(0, 0)], 1, 3⟩]
    ∧ (1 : ℚ) < 1003/1000 := by
  constructor
  · norm_num [vectorize_alerts, maskPixels, components, addPixel, assignConf,
      listMax, natsMin, natsMax, round2, roundHE, intTrunc, List.enum,
      List.enumFrom, List.filterMap, Int.floor_eq_iff]
  · norm_num

theorem foldl_min_le_init : ∀ (xs : List ℕ) (a : ℕ), xs.foldl min a ≤ a := by
  intro xs
  induction xs with
  | nil => intro a; exact le_refl a
  | cons x xs ih =>
    intro a
    exact le_trans (ih (min a x)) (min_le_left a x)

theorem foldl_min_le_mem : ∀ (xs : List ℕ) (a x : ℕ), x ∈ xs → xs.foldl min a ≤ x := by
  intro xs
  induction xs with
  | nil => intro a x hx; simp at hx
  | cons y xs ih =>
    intro a x hx
    rcases List.mem_cons.mp hx with rfl | hx
    · exact le_trans (foldl_min_le_init xs (min a x)) (min_le_right a x)
    · exact ih (min a y) x hx

theorem natsMin_le (l : List ℕ) (x : ℕ) (hx : x ∈ l) : natsMin l ≤ x := by
  cases l with
  | nil => simp at hx
  | cons y ys =>
    rcases List.mem_cons.mp hx with rfl | hx
    · exact foldl_min_le_init ys x
    · exact foldl_min_le_mem ys y x hx

theorem init_le_foldl_max : ∀ (xs : List ℕ) (a : ℕ), a ≤ xs.foldl max a := by
  intro xs
  induction xs with
  | nil => intro a; exact le_refl a
  | cons x xs ih =>
    intro a
    exact le_trans (le_max_left a x) (ih (max a x))

theorem mem_le_foldl_max : ∀ (xs : List ℕ) (a x : ℕ), x ∈ xs → x ≤ xs.foldl max a := by
  intro xs
  induction xs with
  | nil => intro a x hx; simp at hx
  | cons y xs ih =>
    intro a x hx
    rcases List.mem_cons.mp hx with rfl | hx
    · exact le_trans (le_max_right a x) (init_le_foldl_max xs (max a x))
    · exact ih (max a y) x hx

theorem le_natsMax (l : List ℕ) (x : ℕ) (hx : x ∈ l) : x ≤ natsMax l := by
  cases l with
  | nil => simp at hx
  | cons y ys =>
    rcases List.mem_cons.mp hx with rfl | hx
    · exact init_le_foldl_max ys x
    · exact mem_le_foldl_max ys y x hx

theorem init_le_foldl_maxQ : ∀ (xs : List ℚ) (a : ℚ), a ≤ xs.foldl max a := by
  intro xs
  induction xs with
  | nil => intro a; exact le_refl a
  | cons x xs ih =>
    intro a
    exact le_trans (le_max_left a x) (ih (max a x))

theorem mem_le_foldl_maxQ : ∀ (xs : List ℚ) (a x : ℚ), x ∈ xs → x ≤ xs.foldl max a := by
  intro xs
  induction xs with
  | nil => intro a x hx; simp at hx
  | cons y xs ih =>
    intro a x hx
    rcases List.mem_cons.mp hx with rfl | hx
    · exact le_trans (le_max_right a x) (init_le_foldl_maxQ xs (max a x))
    · exact ih (max a y) x hx

theorem foldl_maxQ_cases : ∀ (xs : List ℚ) (a : ℚ),
    xs.foldl max a = a ∨ xs.foldl max a ∈ xs := by
  intro xs
  induction xs with
  | nil => intro a; exact Or.inl rfl
  | cons x xs ih =>
    intro a
    rw [List.foldl_cons]
    rcases ih (max a x) with h | h
    · rw [h]
      rcases max_cases a x with ⟨hm, _⟩ | ⟨hm, _⟩
      · exact Or.inl hm
      · rw [hm]
        exact Or.inr (List.mem_cons_self _ _)
    · exact Or.inr (List.mem_cons_of_mem _ h)

theorem le_listMax (l : List ℚ) (m x : ℚ) (hm : listMax l = some m) (hx : x ∈ l) :
    x ≤ m := by
  cases l with
  | nil => simp at hx
  | cons y ys =>
    rw [listMax] at hm
    injection hm with hm
    subst hm
    rcases List.mem_cons.mp hx with rfl | hx
    · exact init_le_foldl_maxQ ys x
    · exact mem_le_foldl_maxQ ys y x hx

theorem listMax_mem (l : List ℚ) (m : ℚ) (hm : listMax l = some m) : m ∈ l := by
  cases l with
  | nil => simp [listMax] at hm
  | cons y ys =>
    rw [listMax] at hm
    injection hm with hm
    subst hm
    rcases foldl_maxQ_cases ys y with h | h
    · rw [h]
      exact List.mem_cons_self _ _
    · exact List.mem_cons_of_mem _ h

theorem listMax_eq_none (l : List ℚ) : listMax l = none ↔ l = [] := by
  cases l with
  | nil => simp [listMax]
  | cons y ys => simp [listMax]

theorem components_sound (P : ℕ × ℕ → Prop) :
    ∀ (ps : List (ℕ × ℕ)) (acc : List (List (ℕ × ℕ))),
      (∀ p ∈ ps, P p) →
      (∀ comp ∈ acc, comp ≠ [] ∧ ∀ q ∈ comp, P q) →
      ∀ comp ∈ ps.foldl addPixel acc, comp ≠ [] ∧ ∀ q ∈ comp, P q := by
  intro ps
  induction ps with
  | nil => intro acc _ hacc; exact hacc
  | cons p ps ih =>
    intro acc hps hacc
    rw [List.foldl_cons]
    refine ih (addPixel acc p) (fun q hq => hps q (List.mem_cons_of_mem _ hq)) ?_
    intro comp hcomp
    unfold addPixel at hcomp
    simp only [] at hcomp
    rcases List.mem_cons.mp hcomp with rfl | hrest
    · refine ⟨List.cons_ne_nil _ _, ?_⟩
      intro q hq
      rcases List.mem_cons.mp hq with rfl | hq
      · exact hps q (List.mem_cons_self _ _)
      · obtain ⟨c, hc, hqc⟩ := List.mem_flatten.mp hq
        exact (hacc c (List.mem_of_mem_filter hc)).2 q hqc
    · exact hacc comp (List.mem_of_mem_filter hrest)

theorem maskPixels_mem (conf : List (List ℚ)) (minConf : ℚ) (p : ℕ × ℕ)
    (hp : p ∈ maskPixels conf minConf) :
    ∃ row, conf[p.1]? = some row ∧ ∃ v, row[p.2]? = some v ∧ minConf ≤ v := by
  unfold maskPixels at hp
  obtain ⟨l, hl, hpl⟩ := List.mem_flatten.mp hp
  obtain ⟨rc, hrc, hlrc⟩ := List.mem_map.mp hl
  rw [← hlrc] at hpl
  obtain ⟨cv, hcv, hcvp⟩ := List.mem_filterMap.mp hpl
  by_cases hle : minConf ≤ cv.2
  · rw [if_pos hle] at hcvp
    injection hcvp with hcvp
    have hrow : conf[rc.1]? = some rc.2 := List.mem_enum_iff_getElem?.mp hrc
    have hval : rc.2[cv.1]? = some cv.2 := List.mem_enum_iff_getElem?.mp hcv
    rw [← hcvp]
    exact ⟨rc.2, hrow, cv.2, hval, hle⟩
  · rw [if_neg hle] at hcvp
    simp at hcvp

theorem floor_le_roundHE (x : ℚ) : ⌊x⌋ ≤ roundHE x := by
  unfold roundHE
  simp only []
  split
  · exact le_refl _
  · split
    · omega
    · split <;> omega

theorem roundHE_ge_sub_half (x : ℚ) : x - 1/2 ≤ (roundHE x : ℚ) := by
  have hf : (⌊x⌋ : ℚ) ≤ x := Int.floor_le x
  have hf2 : x < ⌊x⌋ + 1 := Int.lt_floor_add_one x
  unfold roundHE
  simp only []
  split
  · rename_i h
    linarith
  · split
    · push_cast
      linarith
    · split
      · linarith
      · push_cast
        linarith

theorem roundHE_ge_int (x : ℚ) (k : ℤ) (h : (k : ℚ) ≤ x) : k ≤ roundHE x :=
  le_trans (Int.le_floor.mpr h) (floor_le_roundHE x)

theorem round2_ge_sub (x : ℚ) : x - 1/200 ≤ round2 x := by
  have h := roundHE_ge_sub_half (x * 100)
  unfold round2
  linarith

theorem round2_ge_int_bound (x : ℚ) (k : ℤ) (hk : (k : ℚ)/100 ≤ x) :
    (k : ℚ)/100 ≤ round2 x := by
  have h1 : (k : ℚ) ≤ x * 100 := by linarith
  have h2 := roundHE_ge_int (x * 100) k h1
  have h3 : (k : ℚ) ≤ (roundHE (x * 100) : ℚ) := by exact_mod_cast h2
  unfold round2
  linarith

theorem intTrunc_one_to_three (m : ℚ) (h1 : 1 ≤ m) (h3 : m ≤ 3) :
    intTrunc m = 1 ∨ intTrunc m = 2 ∨ intTrunc m = 3 := by
  unfold intTrunc
  rw [if_pos (by linarith : (0 : ℚ) ≤ m)]
  have hlo : 1 ≤ ⌊m⌋ := Int.le_floor.mpr (by exact_mod_cast h1)
  have hhi : (⌊m⌋ : ℚ) ≤ 3 := le_trans (Int.floor_le m) h3
  have hhi' : ⌊m⌋ ≤ 3 := by exact_mod_cast hhi
  omega

/-- The confidence a polygon is assigned is in {1,2,3} whenever the raster
values are confidence levels, the minimum confidence is at least 1, and the
polygon is a nonempty set of alert pixels. -/
theorem assignConf_mem_range (conf : List (List ℚ)) (minConf : ℚ)
    (comp : List (ℕ × ℕ)) (hmc : 1 ≤ minConf)
    (hvals : ∀ row ∈ conf, ∀ v ∈ row, v = 0 ∨ v = 1 ∨ v = 2 ∨ v = 3)
    (hrect : ∀ row ∈ conf, row.length = (conf.head?.getD []).length)
    (hne : comp ≠ [])
    (hsub : ∀ q ∈ comp, q ∈ maskPixels conf minConf) :
    assignConf conf comp = 1 ∨ assignConf conf comp = 2 ∨ assignConf conf comp = 3 := by
  obtain ⟨q, comp', rfl⟩ : ∃ q comp', comp = q :: comp' := by
    cases comp with
    | nil => exact absurd rfl hne
    | cons q c => exact ⟨q, c, rfl⟩
  obtain ⟨row, hrow, v, hv, hle⟩ :=
    maskPixels_mem conf minConf q (hsub q (List.mem_cons_self _ _))
  have hq1H : q.1 < conf.length := (List.getElem?_eq_some_iff.mp hrow).1
  have hrowmem : row ∈ conf := List.getElem?_mem hrow
  have hq2R : q.2 < row.length := (List.getElem?_eq_some_iff.mp hv).1
  have hq2W : q.2 < (conf.head?.getD []).length := by
    rw [← hrect row hrowmem]
    exact hq2R
  have hr0 : natsMin ((q :: comp').map (fun p => p.1)) ≤ q.1 :=
    natsMin_le _ _ (List.mem_map_of_mem _ (List.mem_cons_self _ _))
  have hrM : q.1 ≤ natsMax ((q :: comp').map (fun p => p.1)) :=
    le_natsMax _ _ (List.mem_map_of_mem _ (List.mem_cons_self _ _))
  have hc0 : natsMin ((q :: comp').map (fun p => p.2)) ≤ q.2 :=
    natsMin_le _ _ (List.mem_map_of_mem _ (List.mem_cons_self _ _))
  have hcM : q.2 ≤ natsMax ((q :: comp').map (fun p => p.2)) :=
    le_natsMax _ _ (List.mem_map_of_mem _ (List.mem_cons_self _ _))
  rw [assignConf]
  simp only []
  set H := conf.length with hH
  set W := (conf.head?.getD []).length with hW
  set r0 := natsMin ((q :: comp').map (fun p => p.1)) with hr0def
  set rM := natsMax ((q :: comp').map (fun p => p.1)) with hrMdef
  set c0 := natsMin ((q :: comp').map (fun p => p.2)) with hc0def
  set cM := natsMax ((q :: comp').map (fun p => p.2)) with hcMdef
  have hq1r1 : q.1 < min H (rM + 2) := Nat.lt_min.mpr ⟨hq1H, by omega⟩
  have hq2c1 : q.2 < min W (cM + 2) := Nat.lt_min.mpr ⟨hq2W, by omega⟩
  rw [if_neg (by push_neg; omega)]
  have htake : ((conf.drop r0).take (min H (rM + 2) - r0))[q.1 - r0]? = some row := by
    rw [List.getElem?_take, if_pos (by omega), List.getElem?_drop,
      (by omega : r0 + (q.1 - r0) = q.1)]
    exact hrow
  have hslice : ((row.drop c0).take (min W (cM + 2) - c0))[q.2 - c0]? = some v := by
    rw [List.getElem?_take, if_pos (by omega), List.getElem?_drop,
      (by omega : c0 + (q.2 - c0) = q.2)]
    exact hv
  have hmapped : (((conf.drop r0).take (min H (rM + 2) - r0)).map
      (fun row => (row.drop c0).take (min W (cM + 2) - c0)))[q.1 - r0]? =
      some ((row.drop c0).take (min W (cM + 2) - c0)) := by
    rw [List.getElem?_map, htake]
    rfl
  have hcells : v ∈ (((conf.drop r0).take (min H (rM + 2) - r0)).map
      (fun row => (row.drop c0).take (min W (cM + 2) - c0))).flatten :=
    List.mem_flatten.mpr ⟨_, List.getElem?_mem hmapped, List.getElem?_mem hslice⟩
  have hcellsle : ∀ x ∈ (((conf.drop r0).take (min H (rM + 2) - r0)).map
      (fun row => (row.drop c0).take (min W (cM + 2) - c0))).flatten, x ≤ 3 := by
    intro x hx
    obtain ⟨slice, hsl, hxs⟩ := List.mem_flatten.mp hx
    obtain ⟨row', hrow', rfl⟩ := List.mem_map.mp hsl
    have hrow'conf : row' ∈ conf :=
      List.mem_of_mem_drop (List.mem_of_mem_take hrow')
    have hxrow : x ∈ row' :=
      List.mem_of_mem_drop (List.mem_of_mem_take hxs)
    rcases hvals row' hrow'conf x hxrow with rfl | rfl | rfl | rfl <;> norm_num
  cases hlm : listMax (((conf.drop r0).take (min H (rM + 2) - r0)).map
      (fun row => (row.drop c0).take (min W (cM + 2) - c0))).flatten with
  | none =>
    rw [listMax_eq_none] at hlm
    rw [hlm] at hcells
    simp at hcells
  | some m =>
    have hm1 : (1 : ℚ) ≤ m :=
      le_trans (le_trans hmc hle) (le_listMax _ m v hlm hcells)
    have hm3 : m ≤ 3 := hcellsle m (listMax_mem _ m hlm)
    exact intTrunc_one_to_three m hm1 hm3

/-- C7 amended: every row of `vectorize_alerts` comes from a connected
component whose true polygon area is at least `min_area_ha` (raising
`min_area_ha` above it removes the row); the stored `area_ha` column is that
area rounded to 2 decimals, hence at least `min_area_ha − 0.005`, and at
least `min_area_ha` itself whenever `min_area_ha` is a multiple of 0.01
(the default 1.0 included); each row's confidence is in {1,2,3}; and when
no pixel reaches `min_confidence` the result is the empty (zero-row)
collection, not an error. -/
theorem vectorize_alerts_filtered :
    (∀ (conf : List (List ℚ)) (pw ph minConf minAreaHa : ℚ),
      1 ≤ minConf →
      (∀ row ∈ conf, ∀ v ∈ row, v = 0 ∨ v = 1 ∨ v = 2 ∨ v = 3) →
      (∀ row ∈ conf, row.length = (conf.head?.getD []).length) →
      ∀ rec ∈ vectorize_alerts conf pw ph minConf minAreaHa,
        minAreaHa ≤ (rec.pixels.length : ℚ) * (pw * ph) / 10000
        ∧ rec.area_ha = round2 ((rec.pixels.length : ℚ) * (pw * ph) / 10000)
        ∧ minAreaHa - 1/200 ≤ rec.area_ha
        ∧ (∀ k : ℤ, minAreaHa = (k : ℚ)/100 → minAreaHa ≤ rec.area_ha)
        ∧ (rec.confidence = 1 ∨ rec.confidence = 2 ∨ rec.confidence = 3))
    ∧ (∀ (conf : List (List ℚ)) (pw ph minConf minAreaHa : ℚ),
        maskPixels conf minConf = [] →
        vectorize_alerts conf pw ph minConf minAreaHa = []) := by
  constructor
  · intro conf pw ph minConf minAreaHa hmc hvals hrect rec hrec
    unfold vectorize_alerts at hrec
    simp only [] at hrec
    split at hrec
    · simp at hrec
    · split at hrec
      · simp at hrec
      · obtain ⟨rc, hrc, hrecd⟩ := List.mem_map.mp hrec
        obtain ⟨comp, hcomp, hsome⟩ := List.mem_filterMap.mp hrc
        by_cases harea : ((comp.length : ℚ) * (pw * ph) / 10000) < minAreaHa
        · rw [if_pos harea] at hsome
          simp at hsome
        · rw [if_neg harea] at hsome
          injection hsome with hsome
          rw [← hsome] at hrecd
          subst hrecd
          have hcompinv := components_sound (fun p => p ∈ maskPixels conf minConf)
            (maskPixels conf minConf) [] (fun p hp => hp) (by simp) comp hcomp
          refine ⟨not_lt.mp harea, rfl, ?_, ?_, ?_⟩
          · have h1 := round2_ge_sub ((comp.length : ℚ) * (pw * ph) / 10000)
            have h2 := not_lt.mp harea
            show minAreaHa - 1/200 ≤ round2 ((comp.length : ℚ) * (pw * ph) / 10000)
            linarith
          · intro k hk
            have h2 := not_lt.mp harea
            have := round2_ge_int_bound ((comp.length : ℚ) * (pw * ph) / 10000) k
              (by rw [← hk]; exact h2)
            show minAreaHa ≤ round2 ((comp.length : ℚ) * (pw * ph) / 10000)
            rw [hk]
            exact this
          · exact assignConf_mem_range conf minConf comp hmc hvals hrect
              hcompinv.1 hcompinv.2
  · intro conf pw ph minConf minAreaHa h
    unfold vectorize_alerts
    rw [h]
    simp

/-- Witness for `vectorize_alerts_filtered` on a one-pixel raster of
confidence 3 with 100 m pixels (1 ha) and the default thresholds. -/
theorem vectorize_alerts_filtered_witness :
    (∀ rec ∈ vectorize_alerts [[3]] 100 100 1 1,
      (1 : ℚ) ≤ (rec.pixels.length : ℚ) * (100 * 100) / 10000
      ∧ rec.area_ha = round2 ((rec.pixels.length : ℚ) * (100 * 100) / 10000)
      ∧ (1 : ℚ) - 1/200 ≤ rec.area_ha
      ∧ (∀ k : ℤ, (1 : ℚ) = (k : ℚ)/100 → (1 : ℚ) ≤ rec.area_ha)
      ∧ (rec.confidence = 1 ∨ rec.confidence = 2 ∨ rec.confidence = 3))
    ∧ vectorize_alerts [[(0 : ℚ)]] 100 100 1 1 = [] :=
  ⟨vectorize_alerts_filtered.1 [[3]] 100 100 1 1 (by norm_num)
      (by
        intro row hrow v hv
        simp only [List.mem_singleton] at hrow
        subst hrow
        simp only [List.mem_singleton] at hv
        subst hv
        norm_num)
      (by
        intro row hrow
        simp only [List.mem_singleton] at hrow
        subst hrow
        rfl),
   vectorize_alerts_filtered.2 [[(0 : ℚ)]] 100 100 1 1
      (by norm_num [maskPixels, List.enum, List.enumFrom, List.filterMap])⟩

end Araripe
